import Mathlib

/-!
Verification development for the goa error model (error.go) and the design
validation walker (design/validation.go).

Conventions of the shallow embedding:
* Go slices and maps become Lean lists (map iteration order is fixed by the
  list order; no claim below depends on a particular map order).
* Machine integers that matter here (HTTP status codes, list lengths) are
  non-negative in every code path, so they are embedded as Nat.
* A Go run-time panic (nil pointer dereference, out-of-range index, explicit
  panic) is embedded as `Except.error` carrying the run-time error text; a
  normal return is `Except.ok`.
* `fmt.Sprintf`/`fmt.Errorf` calls are embedded as explicit message-building
  functions, one per call site, reproducing the format string.
-/

/- ===================================================================
   Decimal rendering: model of the fmt verb %d on a non-negative integer.
   The fuel argument (first Nat) only drives structural recursion; fuel n
   is always enough to render n, as proved below.
   =================================================================== -/

def digitChar (n : Nat) : Char := Char.ofNat (48 + n)

def natToDecGo : Nat → Nat → List Char → List Char
  | 0, n, acc => digitChar n :: acc
  | fuel + 1, n, acc =>
    if n < 10 then digitChar n :: acc
    else natToDecGo fuel (n / 10) (digitChar (n % 10) :: acc)

def natToDec (n : Nat) : String := String.mk (natToDecGo n n [])

/- ===================================================================
   Model of the fmt verb %#v on a Go value (Go-syntax representation).
   Strings are rendered in double quotes with backslash escaping; the
   escape table covers the characters relevant to this code base.
   =================================================================== -/

def goEscapeChar (c : Char) : List Char :=
  if c = '"' then ['\\', '"']
  else if c = '\\' then ['\\', '\\']
  else if c = '\n' then ['\\', 'n']
  else if c = '\t' then ['\\', 't']
  else if c = '\r' then ['\\', 'r']
  else [c]

def goQuote (s : String) : String :=
  String.mk ('"' :: s.data.foldr (fun c acc => goEscapeChar c ++ acc) ['"'])

/-- Dynamically typed Go value (`interface\x7b\x7d`), restricted to the value
shapes the claims exercise. -/
inductive GoValue where
  | str (s : String)
  | int (n : Nat)
deriving DecidableEq

def goSharpFmt : GoValue → String
  | .str s => goQuote s
  | .int n => natToDec n

/- ===================================================================
   error.go: ErrorKind, TypedError, MultiError, ReportError and the
   construction helpers.
   =================================================================== -/

/-- ErrorKind is an enum (Go: `type ErrorKind int`); the ten constants are
iota + 1 = 1..10 in declaration order. -/
abbrev ErrorKind := Nat

def ErrInvalidParamType : ErrorKind := 1
def ErrMissingParam : ErrorKind := 2
def ErrInvalidAttributeType : ErrorKind := 3
def ErrMissingAttribute : ErrorKind := 4
def ErrInvalidEnumValue : ErrorKind := 5
def ErrMissingHeader : ErrorKind := 6
def ErrInvalidFormat : ErrorKind := 7
def ErrInvalidPattern : ErrorKind := 8
def ErrInvalidRange : ErrorKind := 9
def ErrInvalidLength : ErrorKind := 10

/-- Title returns the human friendly error title; branches in source order.
The Go function ends in `panic("unknown kind")` for any kind that reaches
the end of the switch, embedded here as `none`. -/
def ErrorKind.Title (k : ErrorKind) : Option String :=
  if k = ErrInvalidParamType then some "invalid parameter value"
  else if k = ErrMissingParam then some "missing required parameter"
  else if k = ErrInvalidAttributeType then some "invalid attribute type"
  else if k = ErrMissingAttribute then some "missing required attribute"
  else if k = ErrMissingHeader then some "missing required HTTP header"
  else if k = ErrInvalidEnumValue then some "invalid value"
  else if k = ErrInvalidRange then some "invalid value range"
  else if k = ErrInvalidLength then some "invalid value length"
  else none

structure TypedError where
  Kind : ErrorKind
  Mesg : String
deriving DecidableEq

/-- Error builds the serialized form of a typed error; the message is written
into the buffer verbatim (no escaping). `none` = the Title lookup panicked. -/
def TypedError.Error (t : TypedError) : Option String :=
  (ErrorKind.Title t.Kind).map fun title =>
    "\x7b\"kind\":\"" ++ title ++ "\",\"msg\":\"" ++ t.Mesg ++ "\"\x7d"

/- A Go `error` value as this package sees it: a typed error, a MultiError,
or any other error (represented by its message text). The element list of a
MultiError is a dedicated inductive so that all functions below are
structurally recursive. -/
mutual
inductive GoError where
  | typed (t : TypedError)
  | plain (msg : String)
  | multi (errs : GoErrList)
inductive GoErrList where
  | nil
  | cons (e : GoError) (rest : GoErrList)
end

def GoErrList.push : GoErrList → GoError → GoErrList
  | .nil, e => .cons e .nil
  | .cons x rest, e => .cons x (rest.push e)

def GoErrList.toList : GoErrList → List GoError
  | .nil => []
  | .cons e rest => e :: rest.toList

/-- MultiError.Error wraps any element that is not a *TypedError in plain
double quotes (no escaping). -/
def wrapUnlessTyped (e : GoError) (txt : String) : String :=
  match e with
  | .typed _ => txt
  | _ => "\"" ++ txt ++ "\""

/- Serialization of the error interface: TypedError.Error for typed errors,
the message itself for other errors, and for a MultiError a comma separated
JSON-like array of the serialized elements. `none` = a Title lookup panicked
somewhere inside. -/
mutual
def GoError.errString : GoError → Option String
  | .typed t => t.Error
  | .plain m => some m
  | .multi l => (GoErrList.serialize l).map fun s => "[" ++ s ++ "]"
def GoErrList.serialize : GoErrList → Option String
  | .nil => some ""
  | .cons e rest =>
    match e.errString, rest with
    | none, _ => none
    | some txt, .nil => some (wrapUnlessTyped e txt)
    | some txt, .cons _ _ =>
      (GoErrList.serialize rest).map fun rs => wrapUnlessTyped e txt ++ "," ++ rs
end

/-- ReportError coerces the first argument into a MultiError then appends the
second argument; `Option.none` stands for a nil incoming error. -/
def ReportError : Option GoError → GoError → GoError
  | none, e2 => .multi (.cons e2 .nil)
  | some (.multi l), e2 => .multi (l.push e2)
  | some e, e2 => .multi (.cons e (.cons e2 .nil))

/-- InvalidParamTypeError builds the kind-1 typed error and reports it; the
message interpolates the offered value and the parameter name with %#v and
the expected type with %s. -/
def InvalidParamTypeError (name : String) (val : GoValue) (expected : String)
    (err : Option GoError) : GoError :=
  let terr : TypedError :=
    { Kind := ErrInvalidParamType
      Mesg := "invalid value " ++ goSharpFmt val ++ " for parameter " ++
        goSharpFmt (.str name) ++ ", must be a " ++ expected }
  ReportError err (.typed terr)

/-- Threading a list of typed failures through ReportError starting from a
nil error value, the way the construction helpers are chained. -/
def chainReport : Option GoError → List TypedError → Option GoError
  | acc, [] => acc
  | acc, t :: ts => chainReport (some (ReportError acc (.typed t))) ts

/- ===================================================================
   design package: the specification graph.

   The data declarations (design/types.go, design/definitions.go) are not
   part of the provided sources; the shapes below are modelled from the
   spec (sections 3 and 9): an attribute type is a closed variant over
   primitive, array, object, user type and media type, an object maps field
   names to nullable attribute pointers, a user type wraps one attribute,
   and a media type extends a user type with an identifier, views and
   links.  Nullable pointers that the validation code tests or dereferences
   are represented by the dedicated option-like inductives DTOpt, AttrElem
   and MTOpt so that every function below is structurally recursive.
   =================================================================== -/

inductive Primitive where
  | boolean
  | integer
  | number
  | pstring
deriving DecidableEq

inductive TypeKind where
  | BooleanKind
  | IntegerKind
  | NumberKind
  | StringKind
  | ObjectKind
  | ArrayKind
  | UserTypeKind
  | MediaTypeKind
deriving DecidableEq

/-- Validation rule attached to an attribute; only the Required rule is
inspected by the walker, every other rule shape is opaque to it. -/
inductive ValidationDefinition where
  | required (Names : List String)
  | otherRule
deriving DecidableEq

mutual
inductive DataType where
  | primitive (p : Primitive)
  | array (elem : AttrElem)
  | object (fields : AttrList)
  | userT (u : UserTypeDefinition)
  | mediaT (m : MediaTypeDefinition)
inductive DTOpt where
  | none
  | some (t : DataType)
inductive AttrElem where
  | null
  | mk (a : AttributeDefinition)
inductive AttrList where
  | nil
  | cons (name : String) (att : AttrElem) (rest : AttrList)
inductive AttributeDefinition where
  | mk (type : DTOpt) (validations : List ValidationDefinition) (view : String)
inductive UserTypeDefinition where
  | mk (attr : AttributeDefinition) (typeName : String)
inductive MediaTypeDefinition where
  | mk (ut : UserTypeDefinition) (identifier : String) (views : ViewList)
      (links : LinkList)
inductive ViewDefinition where
  | mk (parentSet : Bool) (attr : AttributeDefinition) (name : String)
inductive ViewList where
  | nil
  | cons (name : String) (v : ViewDefinition) (rest : ViewList)
inductive LinkDefinition where
  | mk (name : String) (view : String) (parent : MTOpt)
inductive MTOpt where
  | none
  | some (m : MediaTypeDefinition)
inductive LinkList where
  | nil
  | cons (name : String) (l : LinkDefinition) (rest : LinkList)
end

def AttributeDefinition.type : AttributeDefinition → DTOpt
  | .mk t _ _ => t

def AttributeDefinition.validations : AttributeDefinition → List ValidationDefinition
  | .mk _ v _ => v

def AttributeDefinition.view : AttributeDefinition → String
  | .mk _ _ w => w

def UserTypeDefinition.attr : UserTypeDefinition → AttributeDefinition
  | .mk a _ => a

def UserTypeDefinition.typeName : UserTypeDefinition → String
  | .mk _ n => n

def MediaTypeDefinition.ut : MediaTypeDefinition → UserTypeDefinition
  | .mk u _ _ _ => u

def MediaTypeDefinition.identifier : MediaTypeDefinition → String
  | .mk _ i _ _ => i

def MediaTypeDefinition.views : MediaTypeDefinition → ViewList
  | .mk _ _ v _ => v

def MediaTypeDefinition.links : MediaTypeDefinition → LinkList
  | .mk _ _ _ l => l

def LinkDefinition.name : LinkDefinition → String
  | .mk n _ _ => n

def LinkDefinition.view : LinkDefinition → String
  | .mk _ v _ => v

def LinkDefinition.parent : LinkDefinition → MTOpt
  | .mk _ _ p => p

def AttrList.length : AttrList → Nat
  | .nil => 0
  | .cons _ _ rest => 1 + rest.length

def AttrList.hasName : AttrList → String → Bool
  | .nil, _ => false
  | .cons n _ rest, x => x = n || rest.hasName x

def AttrList.lookup : AttrList → String → Option AttrElem
  | .nil, _ => Option.none
  | .cons n att rest, x => if x = n then Option.some att else rest.lookup x

def ViewList.hasName : ViewList → String → Bool
  | .nil, _ => false
  | .cons n _ rest, x => x = n || rest.hasName x

/-- Kind of a data type. The kinds of the primitive, array and object cases
are fixed by the validation code; the user type and media type cases are
modelled from the spec (each named type is its own kind). -/
def DataType.kind : DataType → TypeKind
  | .primitive .boolean => .BooleanKind
  | .primitive .integer => .IntegerKind
  | .primitive .number => .NumberKind
  | .primitive .pstring => .StringKind
  | .array _ => .ArrayKind
  | .object _ => .ObjectKind
  | .userT _ => .UserTypeKind
  | .mediaT _ => .MediaTypeKind

/-- Modelled from the spec: ToObject on a data type returns the underlying
object, chasing user type and media type wrappers down to their underlying
type; a wrapper with an unset underlying type yields no object. -/
def dtToObject : DataType → Option AttrList
  | .object o => Option.some o
  | .userT (.mk (.mk (.some t) _ _) _) => dtToObject t
  | .userT (.mk (.mk .none _ _) _) => Option.none
  | .mediaT (.mk (.mk (.mk (.some t) _ _) _) _ _ _) => dtToObject t
  | .mediaT (.mk (.mk (.mk .none _ _) _) _ _ _) => Option.none
  | _ => Option.none

/-- Modelled from the spec: a media type delegates ToObject to its
underlying type (it extends a user type). -/
def MediaTypeDefinition.ToObject (m : MediaTypeDefinition) : Option AttrList :=
  match m with
  | .mk (.mk (.mk ty _ _) _) _ _ _ =>
    match ty with
    | .some t => dtToObject t
    | .none => Option.none

/- ===================================================================
   Entity definitions outside the type graph.  Back references (action
   parent resource, view and link parent media type for the nil test,
   route parent action) are embedded as presence flags or, for the link
   parent that the code dereferences, as an explicit optional copy.
   =================================================================== -/

structure ResponseDefinition where
  Name : String
  Status : Nat
  Headers : Option AttributeDefinition

structure RouteDefinition where
  Verb : String
  Path : String

structure ActionDefinition where
  Name : String
  Routes : List RouteDefinition
  Params : Option AttributeDefinition
  Payload : Option AttributeDefinition
  Responses : List ResponseDefinition
  parentSet : Bool

structure ResourceDefinition where
  Name : String
  CanonicalActionName : String
  BasePath : String
  BaseParams : Option AttributeDefinition
  ParentName : String
  Actions : List ActionDefinition
  Responses : List ResponseDefinition
  Params : Option AttributeDefinition

structure APIDefinition where
  Name : String
  BaseParams : Option AttributeDefinition
  Resources : List ResourceDefinition
  MediaTypes : List MediaTypeDefinition
  Types : List UserTypeDefinition
  Responses : List ResponseDefinition

/-- DSLDefinition is the interface of everything that can own a validation
failure; a value of it is the owning entity. -/
inductive DSLDefinition where
  | api (a : APIDefinition)
  | res (r : ResourceDefinition)
  | act (a : ActionDefinition)
  | resp (r : ResponseDefinition)
  | attr (a : AttributeDefinition)
  | ut (u : UserTypeDefinition)
  | mt (m : MediaTypeDefinition)
  | view (v : ViewDefinition)
  | link (l : LinkDefinition)

/-- Modelled from the spec: Context returns a human readable locator for the
owning entity; the exact format is owned by the definitions themselves. -/
def DSLDefinition.Context : DSLDefinition → String
  | .api _ => "API"
  | .res r => "resource " ++ r.Name
  | .act a => "action " ++ a.Name
  | .resp r => "response " ++ r.Name
  | .attr _ => "attribute"
  | .ut u => "type " ++ u.typeName
  | .mt m => "media type " ++ m.identifier
  | .view _ => "view"
  | .link l => "link " ++ l.name

/- ===================================================================
   ValidationErrors: parallel lists of failures and owning definitions.
   =================================================================== -/

structure ValidationErrors where
  Errors : List String
  Definitions : List DSLDefinition

def ValidationErrors.empty : ValidationErrors := ⟨[], []⟩

/-- Add formats a message (the embedding passes it preformatted) and appends
the (failure, owning definition) pair. -/
def ValidationErrors.Add (verr : ValidationErrors) (d : DSLDefinition)
    (msg : String) : ValidationErrors :=
  ⟨verr.Errors ++ [msg], verr.Definitions ++ [d]⟩

/-- Merge appends the argument lists onto the target lists. -/
def ValidationErrors.Merge (verr err : ValidationErrors) : ValidationErrors :=
  ⟨verr.Errors ++ err.Errors, verr.Definitions ++ err.Definitions⟩

/-- Callers run `if err := child.Validate(); err != nil \x7b verr.Merge(err) \x7d`;
this is that guarded merge. -/
def ValidationErrors.MergeOpt (verr : ValidationErrors)
    (err : Option ValidationErrors) : ValidationErrors :=
  match err with
  | Option.none => verr
  | Option.some e => verr.Merge e

def ValidationErrors.AsError (verr : ValidationErrors) : Option ValidationErrors :=
  if verr.Errors.length > 0 then Option.some verr else Option.none

/-- Line-by-line pairing of Error(): entry i of Errors is paired with entry i
of Definitions; a missing definition index is a run-time panic (`none`). -/
def errLines : List String → List DSLDefinition → Option (List String)
  | [], _ => Option.some []
  | _ :: _, [] => Option.none
  | e :: es, d :: ds =>
    (errLines es ds).map fun r => (d.Context ++ ": " ++ e) :: r

def ValidationErrors.ErrorString (verr : ValidationErrors) : Option String :=
  (errLines verr.Errors verr.Definitions).map fun l => String.intercalate "\n" l

/- ===================================================================
   Modelled from the spec: ParamsRegex, the path pattern variable matcher
   (defined outside the provided sources).  It finds every non-overlapping
   occurrence of a brace-delimited identifier run ([a-zA-Z0-9_]+) and, as
   FindAllStringSubmatch does, yields for each occurrence the pair
   [whole match, captured name].  The scanner state is the partially read
   candidate name after an opening brace (reversed), or none.
   =================================================================== -/

def identChar (c : Char) : Bool := c.isAlphanum || c = '_'

def mkParamMatch (cs : List Char) : List String :=
  [String.mk ('\x7b' :: (cs ++ ['\x7d'])), String.mk cs]

def paramsScan : Option (List Char) → List Char → List (List String)
  | _, [] => []
  | Option.none, c :: rest =>
    if c = '\x7b' then paramsScan (Option.some []) rest
    else paramsScan Option.none rest
  | Option.some acc, c :: rest =>
    if c = '\x7d' then
      if acc.isEmpty then paramsScan Option.none rest
      else mkParamMatch acc.reverse :: paramsScan Option.none rest
    else if identChar c then paramsScan (Option.some (c :: acc)) rest
    else if c = '\x7b' then paramsScan (Option.some []) rest
    else paramsScan Option.none rest

def paramsRegexFindAll (s : String) : List (List String) :=
  paramsScan Option.none s.data

/- ===================================================================
   Modelled from the spec: mime.ParseMediaType succeeds on a well-formed
   type/subtype identifier (the spec only requires that the identifier
   "parse as a valid MIME type string").  The mime package error text is
   collapsed into one fixed message.
   =================================================================== -/

def mimeTokenChar (c : Char) : Bool :=
  c.isAlphanum || c = '-' || c = '+' || c = '.'

def mimeSplit : List Char → List Char → Option (List Char × List Char)
  | _, [] => Option.none
  | acc, c :: rest =>
    if c = '/' then
      if rest.contains '/' then Option.none else Option.some (acc.reverse, rest)
    else mimeSplit (c :: acc) rest

def mimeParseOk (s : String) : Bool :=
  match mimeSplit [] s.data with
  | Option.some (a, b) =>
    (!a.isEmpty) && (!b.isEmpty) && a.all mimeTokenChar && b.all mimeTokenChar
  | Option.none => false

/- ===================================================================
   The messages of the walker, one builder per fmt.Errorf call site.
   =================================================================== -/

def nilDerefMsg : String :=
  "runtime error: invalid memory address or nil pointer dereference"

def dupRespMsg (status : Nat) : String :=
  "Multiple response definitions with status code " ++ natToDec status

def statusNotDefinedMsg : String := "response status not defined"

def attrTypeNilMsg : String := "attribute type is nil"

def onlyObjectsRequiredMsg (ctx : String) : String :=
  ctx ++ "only objects may define a \"Required\" validation"

def requiredFieldMsg (ctx n : String) : String :=
  ctx ++ "required field \"" ++ n ++ "\" does not exist"

def paramNoNameMsg : String := "action has parameter with no name"

def paramNilMsg (n : String) : String :=
  "definition of parameter " ++ n ++ " cannot be nil"

def paramTypeNilMsg (n : String) : String :=
  "type of parameter " ++ n ++ " cannot be nil"

def paramObjectMsg (n : String) : String :=
  "parameter " ++ n ++ " cannot be an object, only action payloads may be of type object"

def paramsNotObjectMsg : String := "\"Params\" field of action is not an object"

def actionNameEmptyMsg : String := "Action name cannot be empty"

def noRouteMsg : String := "No route defined for action"

def missingParentResourceMsg : String := "missing parent resource"

def resourceNameEmptyMsg : String := "Resource name cannot be empty"

def unknownCanonicalMsg (n : String) : String :=
  "unknown canonical action \"" ++ n ++ "\""

/-- Message of the stray-argument Add call (the Go call passes the resource
as an extra argument after the format string, which fmt renders as a
trailing EXTRA note; no claim observes that suffix, so it is left off). -/
def invalidBaseParamsTypeMsg : String :=
  "invalid type for BaseParams, must be an Object"

/-- strings.Join of all variables but the last with ", ", joined to the last
with " and ". -/
def joinAnd (vars : List String) : String :=
  String.intercalate ", " vars.dropLast ++ " and " ++ (vars.getLast?.getD "")

def basePathCountMsg (vars : List String) (n : Nat) : String :=
  "BasePath defines parameters " ++ joinAnd vars ++ " but BaseParams has " ++
    natToDec n ++ " elements"

def baseVarUnmatchedMsg (v basePath : String) : String :=
  "Variable " ++ v ++ " from base path " ++ basePath ++
    " does not match any parameter from BaseParams"

def basePathUnusedMsg : String := "BasePath does not use variables defines in BaseParams"

def parentNotFoundMsg (n : String) : String :=
  "Parent resource named " ++ goQuote n ++ " not found"

def userTypeNameMsg (ctx : String) : String :=
  ctx ++ " - " ++ "User type must have a name"

/-- Invalid identifier message; the %s argument is the mime package error,
collapsed here into one fixed text (the mime package is outside the
provided sources and no claim observes this message). -/
def invalidMediaIdMsg : String :=
  "invalid media type identifier: " ++ "mime: invalid media type"

def arrayElemNilMsg : String := "array element type is nil"

def attrViewNotMediaMsg (n : String) : String :=
  "attribute " ++ n ++
    " of media type defines a view for rendering but its type is not MediaTypeDefinition"

def attrViewUnknownMsg (n v : String) : String :=
  "attribute " ++ n ++ " of media type uses unknown view " ++ goQuote v

def linkNameEmptyMsg : String := "Links must have a name"

def linkNoParentMsg : String := "Link must have a parent media type"

def linkParentNotObjectMsg : String := "Link parent media type must be an Object"

def linkNameUnmatchedMsg : String :=
  "Link name must match one of the parent media type attribute names"

def linkAttrNotMediaMsg : String := "attribute type must be a media type"

def linkViewMissingMsg (v id : String) : String :=
  "view " ++ goQuote v ++ " does not exist on target media type " ++ goQuote id

def viewNoParentMsg : String := "View must have a parent media type"

/- ===================================================================
   The walker.  Every Validate returns Except String (Option
   ValidationErrors): Except.error embeds a run-time panic, Except.ok the
   AsError result (none = no failures).
   =================================================================== -/

abbrev VResult := Except String (Option ValidationErrors)

/-- Loop over r.Names of one Required rule: a name missing from the object
fields (or any name, when there is no object) is recorded. -/
def requiredNamesCheck (ctx : String) (parent : DSLDefinition)
    (o : Option AttrList) (verr : ValidationErrors) :
    List String → ValidationErrors
  | [] => verr
  | n :: rest =>
    let found := match o with
      | Option.some fields => fields.hasName n
      | Option.none => false
    let verr := if found then verr else verr.Add parent (requiredFieldMsg ctx n)
    requiredNamesCheck ctx parent o verr rest

/-- Loop over a.Validations: only Required rules are inspected; a Required
rule on a non-object records a failure, then each required name is checked
against the object fields. -/
def validationsCheck (ctx : String) (parent : DSLDefinition)
    (o : Option AttrList) (verr : ValidationErrors) :
    List ValidationDefinition → ValidationErrors
  | [] => verr
  | .required names :: rest =>
    let verr := if o.isSome then verr else verr.Add parent (onlyObjectsRequiredMsg ctx)
    let verr := requiredNamesCheck ctx parent o verr names
    validationsCheck ctx parent o verr rest
  | .otherRule :: rest => validationsCheck ctx parent o verr rest

set_option maxHeartbeats 1000000 in
mutual
/-- AttributeDefinition.Validate: a nil type is recorded and returned at
once; otherwise the Required rules are checked, then the walker recurses
into object fields, or into the array element type found by the
IsArray/ToArray delegation chain. -/
def AttributeDefinition.Validate (a : AttributeDefinition) (ctx : String)
    (parent : DSLDefinition) : VResult :=
  match a with
  | .mk ty validations vw =>
    match ty with
    | .none => Except.ok (Option.some (ValidationErrors.empty.Add parent attrTypeNilMsg))
    | .some t =>
      let ctx2 := if ctx ≠ "" then ctx ++ " - " else ctx
      let o : Option AttrList := match t with
        | .object fields => Option.some fields
        | _ => Option.none
      let verr := validationsCheck ctx2 parent o ValidationErrors.empty validations
      match t with
      | .object fields => do
        let verr ← attrFieldsValidate
          (DSLDefinition.attr (AttributeDefinition.mk ty validations vw)) fields verr
        pure verr.AsError
      | .primitive p => do
        let verr ← arrayElemValidate ctx2
          (DSLDefinition.attr (AttributeDefinition.mk ty validations vw))
          (DataType.primitive p) verr
        pure verr.AsError
      | .array e => do
        let verr ← arrayElemValidate ctx2
          (DSLDefinition.attr (AttributeDefinition.mk ty validations vw))
          (DataType.array e) verr
        pure verr.AsError
      | .userT u => do
        let verr ← arrayElemValidate ctx2
          (DSLDefinition.attr (AttributeDefinition.mk ty validations vw))
          (DataType.userT u) verr
        pure verr.AsError
      | .mediaT m => do
        let verr ← arrayElemValidate ctx2
          (DSLDefinition.attr (AttributeDefinition.mk ty validations vw))
          (DataType.mediaT m) verr
        pure verr.AsError

/-- Loop over the fields of an object attribute: each child is validated
with context "field <name>" and parent the owning attribute (passed here
already wrapped as a DSLDefinition); a nil child pointer crashes when its
Validate dereferences it. -/
def attrFieldsValidate (parent : DSLDefinition) (fields : AttrList)
    (verr : ValidationErrors) : Except String ValidationErrors :=
  match fields with
  | .nil => Except.ok verr
  | .cons n att rest =>
    match att with
    | .null => Except.error nilDerefMsg
    | .mk a => do
      let r ← AttributeDefinition.Validate a ("field " ++ n) parent
      attrFieldsValidate parent rest (verr.MergeOpt r)

/-- The IsArray/ToArray/ElemType.Validate path of the non-object branch:
user type and media type wrappers delegate to their underlying type
(modelled from the spec), an array with a nil element pointer crashes when
ElemType.Validate dereferences it, and a non-array type is a no-op.  The
parent is the owning attribute, wrapped as a DSLDefinition. -/
def arrayElemValidate (ctx : String) (parent : DSLDefinition)
    (t : DataType) (verr : ValidationErrors) : Except String ValidationErrors :=
  match t with
  | .array .null => Except.error nilDerefMsg
  | .array (.mk e) => do
    let r ← AttributeDefinition.Validate e ctx parent
    pure (verr.MergeOpt r)
  | .userT (.mk (.mk (.some t2) _ _) _) => arrayElemValidate ctx parent t2 verr
  | .userT (.mk (.mk .none _ _) _) => Except.ok verr
  | .mediaT (.mk (.mk (.mk (.some t2) _ _) _) _ _ _) => arrayElemValidate ctx parent t2 verr
  | .mediaT (.mk (.mk (.mk .none _ _) _) _ _ _) => Except.ok verr
  | _ => Except.ok verr
end

/-- UserTypeDefinition.Validate: name check, then the embedded attribute is
validated with the same context and parent. -/
def UserTypeDefinition.Validate (u : UserTypeDefinition) (ctx : String)
    (parent : DSLDefinition) : VResult :=
  match u with
  | .mk attr typeName => do
    let verr :=
      if typeName = "" then ValidationErrors.empty.Add parent (userTypeNameMsg ctx)
      else ValidationErrors.empty
    let r ← attr.Validate ctx parent
    pure (verr.MergeOpt r).AsError

/-- ResponseDefinition.Validate: headers (if set) then the status check. -/
def ResponseDefinition.Validate (r : ResponseDefinition) : VResult := do
  let verr := ValidationErrors.empty
  let verr ← match r.Headers with
    | Option.none => pure verr
    | Option.some h => do
      let e ← h.Validate "response headers" (DSLDefinition.resp r)
      pure (verr.MergeOpt e)
  let verr := if r.Status = 0 then verr.Add (DSLDefinition.resp r) statusNotDefinedMsg else verr
  pure verr.AsError

/-- Loop over the params object of an action.  The name/nil/nil-type checks
are an else-if chain; the subsequent unconditional `p.Type.Kind()` read
crashes on a nil parameter or a nil parameter type. -/
def paramsLoop (a : ActionDefinition) (verr : ValidationErrors) :
    AttrList → Except String ValidationErrors
  | .nil => Except.ok verr
  | .cons n p rest => do
    let verr :=
      if n = "" then verr.Add (.act a) paramNoNameMsg
      else match p with
        | .null => verr.Add (.act a) (paramNilMsg n)
        | .mk att => match att.type with
          | .none => verr.Add (.act a) (paramTypeNilMsg n)
          | .some _ => verr
    match p with
    | .null => Except.error nilDerefMsg
    | .mk att =>
      match att.type with
      | .none => Except.error nilDerefMsg
      | .some t => do
        let verr := if t.kind = TypeKind.ObjectKind then verr.Add (.act a) (paramObjectMsg n) else verr
        let r ← att.Validate ("parameter " ++ n) (DSLDefinition.act a)
        paramsLoop a (verr.MergeOpt r) rest

/-- Plain loop validating responses and merging their failures. -/
def respLoopSimple (verr : ValidationErrors) :
    List ResponseDefinition → Except String ValidationErrors
  | [] => Except.ok verr
  | r :: rest => do
    let e ← r.Validate
    respLoopSimple (verr.MergeOpt e) rest

/-- ActionDefinition.ValidateParams: returns nil at once when Params is nil;
otherwise checks the params object (a failed object assertion leaves an
empty map, so the loop is skipped) and then validates every response again. -/
def ActionDefinition.ValidateParams (a : ActionDefinition) : VResult :=
  match a.Params with
  | Option.none => Except.ok Option.none
  | Option.some pa => do
    let (verr, fields) :=
      match pa.type with
      | .some (.object fields) => (ValidationErrors.empty, fields)
      | _ => (ValidationErrors.empty.Add (.act a) paramsNotObjectMsg, AttrList.nil)
    let verr ← paramsLoop a verr fields
    let verr ← respLoopSimple verr a.Responses
    pure verr.AsError

/-- Inner loop of the duplicate-status check for the response at outer
index i: one entry per index j with i ≠ j and equal status, each recorded
against the outer response with its status. -/
def innerDupLoop (r : ResponseDefinition) (i : Nat) (verr : ValidationErrors) :
    Nat → List ResponseDefinition → ValidationErrors
  | _, [] => verr
  | j, r2 :: rest =>
    let verr :=
      if i ≠ j ∧ r.Status = r2.Status then verr.Add (.resp r) (dupRespMsg r.Status)
      else verr
    innerDupLoop r i verr (j + 1) rest

/-- Outer loop over an action's responses: for each response, first the
pairwise duplicate-status scan over the whole list, then the response's own
validation. -/
def outerRespLoop (all : List ResponseDefinition) (i : Nat)
    (verr : ValidationErrors) :
    List ResponseDefinition → Except String ValidationErrors
  | [] => Except.ok verr
  | r :: rest => do
    let verr := innerDupLoop r i verr 0 all
    let e ← r.Validate
    outerRespLoop all (i + 1) (verr.MergeOpt e) rest

/-- ActionDefinition.Validate, in source order: name, routes, responses
(duplicate scan plus per-response validation), ValidateParams, payload,
parent presence. -/
def ActionDefinition.Validate (a : ActionDefinition) : VResult := do
  let verr := ValidationErrors.empty
  let verr := if a.Name = "" then verr.Add (.act a) actionNameEmptyMsg else verr
  let verr := if a.Routes.length = 0 then verr.Add (.act a) noRouteMsg else verr
  let verr ← outerRespLoop a.Responses 0 verr a.Responses
  let vp ← a.ValidateParams
  let verr := verr.MergeOpt vp
  let verr ← match a.Payload with
    | Option.none => pure verr
    | Option.some p => do
      let e ← p.Validate "action payload" (DSLDefinition.act a)
      pure (verr.MergeOpt e)
  let verr := if a.parentSet then verr else verr.Add (.act a) missingParentResourceMsg
  pure verr.AsError

/-- Loop over a resource's actions, tracking whether the canonical action
name was seen. -/
def actionsLoop (canonical : String) (found : Bool) (verr : ValidationErrors) :
    List ActionDefinition → Except String (Bool × ValidationErrors)
  | [] => Except.ok (found, verr)
  | a :: rest => do
    let found := found || a.Name = canonical
    let e ← a.Validate
    actionsLoop canonical found (verr.MergeOpt e) rest

/-- Loop over the path variables: each variable unmatched by a base
parameter field is recorded. -/
def varsLoop (r : ResourceDefinition) (baseParams : AttrList)
    (verr : ValidationErrors) : List String → ValidationErrors
  | [] => verr
  | v :: rest =>
    let verr :=
      if baseParams.hasName v then verr
      else verr.Add (.res r) (baseVarUnmatchedMsg v r.BasePath)
    varsLoop r baseParams verr rest

/-- The BaseParams section of ResourceDefinition.Validate.  As in the
source, the variable checks run only when the regex finds MORE THAN ONE
match (`len(vs) > 1`), and then inspect `vs[1]` — the [whole match,
captured name] pair of the second match — as the variable list. -/
def baseParamsSection (r : ResourceDefinition) (verr : ValidationErrors) :
    ValidationErrors :=
  match r.BaseParams with
  | Option.none => verr
  | Option.some bp =>
    match bp.type with
    | .some (.object baseParams) =>
      let vs := paramsRegexFindAll r.BasePath
      if vs.length > 1 then
        let vars := vs.getD 1 []
        let verr :=
          if vars.length ≠ baseParams.length then
            verr.Add (.res r) (basePathCountMsg vars baseParams.length)
          else verr
        varsLoop r baseParams verr vars
      else
        if baseParams.length > 0 then verr.Add (.res r) basePathUnusedMsg else verr
    | _ => verr.Add (.res r) invalidBaseParamsTypeMsg

/-- ResourceDefinition.Validate, in source order.  The global registry
Design.Resources is passed explicitly as the list of known resource
names. -/
def ResourceDefinition.Validate (r : ResourceDefinition)
    (DesignResources : List String) : VResult := do
  let verr := ValidationErrors.empty
  let verr := if r.Name = "" then verr.Add (.res r) resourceNameEmptyMsg else verr
  let (found, verr) ← actionsLoop r.CanonicalActionName false verr r.Actions
  let verr :=
    if r.CanonicalActionName ≠ "" ∧ found = false then
      verr.Add (.res r) (unknownCanonicalMsg r.CanonicalActionName)
    else verr
  let verr := baseParamsSection r verr
  let verr :=
    if r.ParentName ≠ "" ∧ ¬ DesignResources.contains r.ParentName then
      verr.Add (.res r) (parentNotFoundMsg r.ParentName)
    else verr
  let verr ← respLoopSimple verr r.Responses
  let verr ← match r.Params with
    | Option.none => pure verr
    | Option.some p => do
      let e ← p.Validate "resource parameters" (DSLDefinition.res r)
      pure (verr.MergeOpt e)
  pure verr.AsError

/-- ViewDefinition.Validate: parent presence, then the embedded attribute. -/
def ViewDefinition.Validate (v : ViewDefinition) : VResult :=
  match v with
  | .mk parentSet attr name => do
    let verr :=
      if parentSet then ValidationErrors.empty
      else ValidationErrors.empty.Add (.view (.mk parentSet attr name)) viewNoParentMsg
    let e ← attr.Validate "" (.view (.mk parentSet attr name))
    pure (verr.MergeOpt e).AsError

/-- LinkDefinition.Validate.  A nil parent is recorded and then dereferenced
by the `l.Parent.ToObject()` call (crash); a matched attribute whose type is
not a media type is recorded and then the nil target media type's Views map
is ranged over (crash). -/
def LinkDefinition.Validate (l : LinkDefinition) : VResult := do
  let verr := ValidationErrors.empty
  let verr := if l.name = "" then verr.Add (.link l) linkNameEmptyMsg else verr
  match l.parent with
  | MTOpt.none =>
    let _ := verr.Add (.link l) linkNoParentMsg
    Except.error nilDerefMsg
  | MTOpt.some p =>
    let obj := p.ToObject
    let verr := if obj.isNone then verr.Add (.link l) linkParentNotObjectMsg else verr
    match (obj.getD AttrList.nil).lookup l.name with
    | Option.none => pure (verr.Add (.link l) linkNameUnmatchedMsg).AsError
    | Option.some att =>
      match att with
      | .null => Except.error nilDerefMsg
      | .mk attDef =>
        match attDef.type with
        | .some (DataType.mediaT mt) =>
          let verr :=
            if mt.views.hasName l.view then verr
            else verr.Add (.link l) (linkViewMissingMsg l.view mt.identifier)
          pure verr.AsError
        | _ =>
          let _ := verr.Add (.link l) linkAttrNotMediaMsg
          Except.error nilDerefMsg

/-- Loop validating the views of a media type. -/
def viewsLoop (verr : ValidationErrors) : ViewList → Except String ValidationErrors
  | .nil => Except.ok verr
  | .cons _ v rest => do
    let e ← v.Validate
    viewsLoop (verr.MergeOpt e) rest

/-- Loop validating the links of a media type. -/
def linksLoop (verr : ValidationErrors) : LinkList → Except String ValidationErrors
  | .nil => Except.ok verr
  | .cons _ l rest => do
    let e ← l.Validate
    linksLoop (verr.MergeOpt e) rest

def MediaTypeDefinition.setIdentifier : MediaTypeDefinition → String → MediaTypeDefinition
  | .mk ut _ vs ls, s => .mk ut s vs ls

/-- Setting m.Type writes through the embedded user type to the underlying
attribute (the embedding is by pointer in the source, so the attribute and
the media type share the field). -/
def MediaTypeDefinition.setType : MediaTypeDefinition → DataType → MediaTypeDefinition
  | .mk (.mk (.mk _ vals vw) tn) id vs ls, t => .mk (.mk (.mk (.some t) vals vw) tn) id vs ls

def MediaTypeDefinition.typeOpt (m : MediaTypeDefinition) : DTOpt :=
  m.ut.attr.type

/-- The array/object section of MediaTypeDefinition.Validate (the
`m.Type.ToArray()` test and the `obj` computation): user and media type
wrappers delegate to their underlying type (modelled from the spec); an
array with a nil element is recorded; a valid element contributes its
object; a non-array type contributes its ToObject. -/
def mtTypeSection (m : MediaTypeDefinition) (verr : ValidationErrors) :
    DataType → Except String (ValidationErrors × Option AttrList)
  | .array .null => Except.ok (verr.Add (.mt m) arrayElemNilMsg, Option.none)
  | .array (.mk e) => do
    let r ← e.Validate "array element" (.mt m)
    match r with
    | Option.some errs => Except.ok (verr.Merge errs, Option.none)
    | Option.none =>
      match e.type with
      | .some t2 => Except.ok (verr, dtToObject t2)
      | .none => Except.error nilDerefMsg
  | .userT (.mk (.mk (.some t2) _ _) _) => mtTypeSection m verr t2
  | .userT (.mk (.mk .none _ _) _) => Except.ok (verr, Option.none)
  | .mediaT (.mk (.mk (.mk (.some t2) _ _) _) _ _ _) => mtTypeSection m verr t2
  | .mediaT (.mk (.mk (.mk .none _ _) _) _ _ _) => Except.ok (verr, Option.none)
  | .object o => Except.ok (verr, Option.some o)
  | .primitive _ => Except.ok (verr, Option.none)

/-- Loop over the attributes of the media type's object: each attribute is
validated, then an attribute that sets a rendering view must be of media
type type (recorded otherwise, after which ranging over the nil target's
Views crashes) and must name an existing view on the target. -/
def mtAttrsLoop (m : MediaTypeDefinition) (verr : ValidationErrors) :
    AttrList → Except String ValidationErrors
  | .nil => Except.ok verr
  | .cons n att rest =>
    match att with
    | .null => Except.error nilDerefMsg
    | .mk attDef => do
      let e ← attDef.Validate ("attribute " ++ n) (.mt m)
      let verr := verr.MergeOpt e
      if attDef.view ≠ "" then
        match attDef.type with
        | .some (DataType.mediaT cmt) =>
          let verr :=
            if cmt.views.hasName attDef.view then verr
            else verr.Add (.mt m) (attrViewUnknownMsg n attDef.view)
          mtAttrsLoop m verr rest
        | _ =>
          let _ := verr.Add (.mt m) (attrViewNotMediaMsg n)
          Except.error nilDerefMsg
      else mtAttrsLoop m verr rest

/-- The defaulting step of MediaTypeDefinition.Validate: an empty
identifier becomes "plain/text" and an unset underlying type becomes the
primitive string (both checks in source order). -/
def mtDefaulted (m : MediaTypeDefinition) : MediaTypeDefinition :=
  let m := if m.identifier = "" then m.setIdentifier "plain/text" else m
  match m.typeOpt with
  | .none => m.setType (DataType.primitive Primitive.pstring)
  | .some _ => m

/-- MediaTypeDefinition.Validate, in source order: embedded user type
validation, identifier check with defaulting to "plain/text", underlying
type defaulting to the primitive string, the array/object section, the
attribute loop, views, links.  The defaults are the one mutation of the
walk, so the (possibly updated) media type is returned with the verdict. -/
def MediaTypeDefinition.Validate (m : MediaTypeDefinition) :
    Except String (MediaTypeDefinition × Option ValidationErrors) := do
  let verr := ValidationErrors.empty
  let e ← m.ut.Validate "" (.mt m)
  let verr := verr.MergeOpt e
  let verr :=
    if m.identifier ≠ "" then
      if mimeParseOk m.identifier then verr else verr.Add (.mt m) invalidMediaIdMsg
    else verr
  let m := mtDefaulted m
  match m.typeOpt with
  | .none => Except.error nilDerefMsg
  | .some t => do
    let (verr, obj) ← mtTypeSection m verr t
    let verr ← match obj with
      | Option.none => pure verr
      | Option.some o => mtAttrsLoop m verr o
    let verr ← viewsLoop verr m.views
    let verr ← linksLoop verr m.links
    pure (m, verr.AsError)

/-- Loop validating an API's resources. -/
def resourcesLoop (DesignResources : List String) (verr : ValidationErrors) :
    List ResourceDefinition → Except String ValidationErrors
  | [] => Except.ok verr
  | r :: rest => do
    let e ← r.Validate DesignResources
    resourcesLoop DesignResources (verr.MergeOpt e) rest

/-- Loop validating an API's media types (the mutated media type is dropped
here, matching the in-place update of the source). -/
def mediaTypesLoop (verr : ValidationErrors) :
    List MediaTypeDefinition → Except String ValidationErrors
  | [] => Except.ok verr
  | m :: rest => do
    let (_, e) ← m.Validate
    mediaTypesLoop (verr.MergeOpt e) rest

/-- Loop validating an API's named user types. -/
def typesLoop (a : APIDefinition) (verr : ValidationErrors) :
    List UserTypeDefinition → Except String ValidationErrors
  | [] => Except.ok verr
  | t :: rest => do
    let e ← t.Validate "" (.api a)
    typesLoop a (verr.MergeOpt e) rest

/-- APIDefinition.Validate, in source order: base parameters (an unset
BaseParams pointer crashes when its Validate reads the type field),
resources, media types, user types, top-level responses.  The global
registry of resource names is passed explicitly. -/
def APIDefinition.Validate (a : APIDefinition)
    (DesignResources : List String) : VResult := do
  let verr := ValidationErrors.empty
  let verr ← match a.BaseParams with
    | Option.none => Except.error nilDerefMsg
    | Option.some bp => do
      let e ← bp.Validate "base parameters" (.api a)
      pure (verr.MergeOpt e)
  let verr ← resourcesLoop DesignResources verr a.Resources
  let verr ← mediaTypesLoop verr a.MediaTypes
  let verr ← typesLoop a verr a.Types
  let verr ← respLoopSimple verr a.Responses
  pure verr.AsError

/- ===================================================================
   Projections used by the theorem statements.
   =================================================================== -/

def msgsOpt : Option ValidationErrors → List String
  | Option.none => []
  | Option.some v => v.Errors

def msgsE : VResult → List String
  | .ok o => msgsOpt o
  | .error _ => []

def isOkV : VResult → Bool
  | .ok _ => true
  | .error _ => false

def mtMsgs : Except String (MediaTypeDefinition × Option ValidationErrors) → List String
  | .ok p => msgsOpt p.2
  | .error _ => []

/-- Number of responses in the list carrying the given status. -/
def countStatus (rs : List ResponseDefinition) (s : Nat) : Nat :=
  (rs.filter fun r => r.Status == s).length

/-- Number of (inner index, response) hits of the duplicate scan for outer
index i and outer status istat: inner positions start at j. -/
def dupHits (istat : Nat) (i : Nat) : Nat → List ResponseDefinition → Nat
  | _, [] => 0
  | j, r2 :: rest => (if i ≠ j ∧ istat = r2.Status then 1 else 0) + dupHits istat i (j + 1) rest

/-- Last character of a message. -/
def lastChar (s : String) : Option Char := s.data.getLast?

/-- A message whose last character is neither a digit nor the letter d; such
a message can be neither a duplicate-status message (those end in a digit)
nor the undefined-status message (which ends in d). -/
def benignMsg (s : String) : Prop :=
  ∃ c, lastChar s = Option.some c ∧ c.isDigit = false ∧ c ≠ 'd'

/-- Numeric value of a digit string, used to invert the decimal rendering. -/
def decValFrom (v : Nat) : List Char → Nat
  | [] => v
  | c :: cs => decValFrom (v * 10 + (c.toNat - 48)) cs

/-- ValidationErrors values reachable from the empty set by any sequence of
Add and Merge operations (the merged argument being itself reachable, as
every merged value is a child Validate result built the same way). -/
inductive ReachableVE : ValidationErrors → Prop where
  | empty : ReachableVE ValidationErrors.empty
  | add : ∀ v d msg, ReachableVE v → ReachableVE (v.Add d msg)
  | merge : ∀ v w, ReachableVE v → ReachableVE w → ReachableVE (v.Merge w)

/- ===================================================================
   Concrete inputs used by the per-claim evaluations and witnesses.
   =================================================================== -/

/-- An attribute typed as the empty object. -/
def emptyObjAttr : AttributeDefinition := .mk (.some (.object .nil)) [] ""

/-- Resource with base path /things/\x7bid\x7d and an empty base parameters
object, otherwise fully valid. -/
def c3res : ResourceDefinition :=
  { Name := "things", CanonicalActionName := "", BasePath := "/things/\x7bid\x7d",
    BaseParams := Option.some emptyObjAttr, ParentName := "", Actions := [],
    Responses := [], Params := Option.none }

/-- Media type with an empty identifier and an unset underlying type. -/
def c4mt : MediaTypeDefinition :=
  .mk (.mk (.mk .none [] "") "MT") "" .nil .nil

/-- The media type c4mt after the defaulting performed by Validate. -/
def c4mtAfter : MediaTypeDefinition :=
  .mk (.mk (.mk (.some (.primitive .pstring)) [] "") "MT") "plain/text" .nil .nil

/-- Action with one parameter whose attribute has a nil type: the walker
records the nil type and then crashes reading p.Type.Kind(). -/
def c1act : ActionDefinition :=
  { Name := "show", Routes := [⟨"GET", "/"⟩],
    Params := Option.some (.mk (.some (.object (.cons "p" (.mk (.mk .none [] "")) .nil))) [] ""),
    Payload := Option.none, Responses := [⟨"ok", 200, Option.none⟩], parentSet := true }

/-- A specification graph containing c1act. -/
def c1api : APIDefinition :=
  { Name := "app", BaseParams := Option.some emptyObjAttr,
    Resources := [{ Name := "things", CanonicalActionName := "", BasePath := "",
                    BaseParams := Option.none, ParentName := "", Actions := [c1act],
                    Responses := [], Params := Option.none }],
    MediaTypes := [], Types := [], Responses := [] }

def c5msg : String := "invalid value \"abc\" for parameter \"page\", must be a integer"

/-- The serialized object form stated by the claim (the form of the sole
typed-error element). -/
def c5elemStr : String :=
  "\x7b\"kind\":\"invalid parameter value\",\"msg\":\"invalid value \"abc\" for parameter \"page\", must be a integer\"\x7d"

def c5terr : TypedError := ⟨ErrInvalidParamType, c5msg⟩

def c5val : GoError := InvalidParamTypeError "page" (GoValue.str "abc") "integer" Option.none

def tA : TypedError := ⟨ErrMissingParam, "missing required parameter \"id\""⟩

def tB : TypedError := ⟨ErrInvalidParamType, "invalid value 3 for parameter \"q\", must be a string"⟩

/-- Action with exactly two responses sharing status 200. -/
def c7act : ActionDefinition :=
  { Name := "list", Routes := [⟨"GET", "/"⟩], Params := Option.none,
    Payload := Option.none,
    Responses := [⟨"ok", 200, Option.none⟩, ⟨"also", 200, Option.none⟩],
    parentSet := true }

/-- Action with a non-nil (empty object) Params field and one response with
undefined (zero) status. -/
def c10act : ActionDefinition :=
  { Name := "list", Routes := [⟨"GET", "/"⟩],
    Params := Option.some emptyObjAttr, Payload := Option.none,
    Responses := [⟨"bad", 0, Option.none⟩], parentSet := true }

/-- A sample owning definition for the C9 witness. -/
def d9 : DSLDefinition := DSLDefinition.attr emptyObjAttr

/-- A reachable ValidationErrors value built by one Add on each side of a
Merge. -/
def v9 : ValidationErrors :=
  (ValidationErrors.empty.Add d9 "boom").Merge (ValidationErrors.empty.Add d9 "bam")

/- ===================================================================
   Fuel-indexed variant of the walker for the termination claim: fuel is
   consumed by the recursive core (attribute validation and the media type
   array/object section); every other routine passes it through.  Option
   none = out of fuel.
   =================================================================== -/

def bindOE {α β : Type} (x : Option (Except String α))
    (f : α → Option (Except String β)) : Option (Except String β) :=
  match x with
  | Option.none => Option.none
  | Option.some (Except.error s) => Option.some (Except.error s)
  | Option.some (Except.ok v) => f v

def okOE {α : Type} (v : α) : Option (Except String α) := Option.some (Except.ok v)

def errOE {α : Type} (s : String) : Option (Except String α) :=
  Option.some (Except.error s)

mutual
def attrValidateFuel : Nat → AttributeDefinition → String → DSLDefinition → Option VResult
  | 0, _, _, _ => Option.none
  | n + 1, a, ctx, parent =>
    match a with
    | .mk ty validations vw =>
      match ty with
      | .none => okOE (Option.some (ValidationErrors.empty.Add parent attrTypeNilMsg))
      | .some t =>
        let ctx2 := if ctx ≠ "" then ctx ++ " - " else ctx
        let o : Option AttrList := match t with
          | .object fields => Option.some fields
          | _ => Option.none
        let verr := validationsCheck ctx2 parent o ValidationErrors.empty validations
        match t with
        | .object fields =>
          bindOE (attrFieldsValidateFuel n
              (DSLDefinition.attr (AttributeDefinition.mk ty validations vw)) fields verr)
            fun verr => okOE verr.AsError
        | _ =>
          bindOE (arrayElemValidateFuel n ctx2
              (DSLDefinition.attr (AttributeDefinition.mk ty validations vw)) t verr)
            fun verr => okOE verr.AsError
def attrFieldsValidateFuel : Nat → DSLDefinition → AttrList → ValidationErrors →
    Option (Except String ValidationErrors)
  | 0, _, _, _ => Option.none
  | n + 1, parent, fields, verr =>
    match fields with
    | .nil => okOE verr
    | .cons nm att rest =>
      match att with
      | .null => errOE nilDerefMsg
      | .mk a =>
        bindOE (attrValidateFuel n a ("field " ++ nm) parent) fun r =>
          attrFieldsValidateFuel n parent rest (verr.MergeOpt r)
def arrayElemValidateFuel : Nat → String → DSLDefinition → DataType → ValidationErrors →
    Option (Except String ValidationErrors)
  | 0, _, _, _, _ => Option.none
  | n + 1, ctx, parent, t, verr =>
    match t with
    | .array .null => errOE nilDerefMsg
    | .array (.mk e) =>
      bindOE (attrValidateFuel n e ctx parent) fun r => okOE (verr.MergeOpt r)
    | .userT (.mk (.mk (.some t2) _ _) _) => arrayElemValidateFuel n ctx parent t2 verr
    | .userT (.mk (.mk .none _ _) _) => okOE verr
    | .mediaT (.mk (.mk (.mk (.some t2) _ _) _) _ _ _) => arrayElemValidateFuel n ctx parent t2 verr
    | .mediaT (.mk (.mk (.mk .none _ _) _) _ _ _) => okOE verr
    | _ => okOE verr
end

def mtTypeSectionFuel : Nat → MediaTypeDefinition → ValidationErrors → DataType →
    Option (Except String (ValidationErrors × Option AttrList))
  | 0, _, _, _ => Option.none
  | n + 1, m, verr, t =>
    match t with
    | .array .null => okOE (verr.Add (.mt m) arrayElemNilMsg, Option.none)
    | .array (.mk e) =>
      bindOE (attrValidateFuel n e "array element" (.mt m)) fun r =>
        match r with
        | Option.some errs => okOE (verr.Merge errs, Option.none)
        | Option.none =>
          match e.type with
          | .some t2 => okOE (verr, dtToObject t2)
          | .none => errOE nilDerefMsg
    | .userT (.mk (.mk (.some t2) _ _) _) => mtTypeSectionFuel n m verr t2
    | .userT (.mk (.mk .none _ _) _) => okOE (verr, Option.none)
    | .mediaT (.mk (.mk (.mk (.some t2) _ _) _) _ _ _) => mtTypeSectionFuel n m verr t2
    | .mediaT (.mk (.mk (.mk .none _ _) _) _ _ _) => okOE (verr, Option.none)
    | .object o => okOE (verr, Option.some o)
    | .primitive _ => okOE (verr, Option.none)

def userTypeValidateFuel (n : Nat) (u : UserTypeDefinition) (ctx : String)
    (parent : DSLDefinition) : Option VResult :=
  match u with
  | .mk attr typeName =>
    let verr :=
      if typeName = "" then ValidationErrors.empty.Add parent (userTypeNameMsg ctx)
      else ValidationErrors.empty
    bindOE (attrValidateFuel n attr ctx parent) fun r => okOE (verr.MergeOpt r).AsError

def responseValidateFuel (n : Nat) (r : ResponseDefinition) : Option VResult :=
  bindOE (match r.Headers with
    | Option.none => okOE ValidationErrors.empty
    | Option.some h =>
      bindOE (attrValidateFuel n h "response headers" (DSLDefinition.resp r)) fun e =>
        okOE (ValidationErrors.empty.MergeOpt e)) fun verr =>
  okOE ((if r.Status = 0 then verr.Add (DSLDefinition.resp r) statusNotDefinedMsg else verr).AsError)

def paramsLoopFuel (n : Nat) (a : ActionDefinition) (verr : ValidationErrors) :
    AttrList → Option (Except String ValidationErrors)
  | .nil => okOE verr
  | .cons nm p rest =>
    let verr :=
      if nm = "" then verr.Add (.act a) paramNoNameMsg
      else match p with
        | .null => verr.Add (.act a) (paramNilMsg nm)
        | .mk att => match att.type with
          | .none => verr.Add (.act a) (paramTypeNilMsg nm)
          | .some _ => verr
    match p with
    | .null => errOE nilDerefMsg
    | .mk att =>
      match att.type with
      | .none => errOE nilDerefMsg
      | .some t =>
        let verr := if t.kind = TypeKind.ObjectKind then verr.Add (.act a) (paramObjectMsg nm) else verr
        bindOE (attrValidateFuel n att ("parameter " ++ nm) (DSLDefinition.act a)) fun r =>
          paramsLoopFuel n a (verr.MergeOpt r) rest

def respLoopSimpleFuel (n : Nat) (verr : ValidationErrors) :
    List ResponseDefinition → Option (Except String ValidationErrors)
  | [] => okOE verr
  | r :: rest =>
    bindOE (responseValidateFuel n r) fun e => respLoopSimpleFuel n (verr.MergeOpt e) rest

def validateParamsFuel (n : Nat) (a : ActionDefinition) : Option VResult :=
  match a.Params with
  | Option.none => okOE Option.none
  | Option.some pa =>
    let (verr, fields) :=
      match pa.type with
      | .some (.object fields) => (ValidationErrors.empty, fields)
      | _ => (ValidationErrors.empty.Add (.act a) paramsNotObjectMsg, AttrList.nil)
    bindOE (paramsLoopFuel n a verr fields) fun verr =>
    bindOE (respLoopSimpleFuel n verr a.Responses) fun verr =>
    okOE verr.AsError

def outerRespLoopFuel (n : Nat) (all : List ResponseDefinition) (i : Nat)
    (verr : ValidationErrors) :
    List ResponseDefinition → Option (Except String ValidationErrors)
  | [] => okOE verr
  | r :: rest =>
    let verr := innerDupLoop r i verr 0 all
    bindOE (responseValidateFuel n r) fun e =>
      outerRespLoopFuel n all (i + 1) (verr.MergeOpt e) rest

def actionValidateFuel (n : Nat) (a : ActionDefinition) : Option VResult :=
  let verr := ValidationErrors.empty
  let verr := if a.Name = "" then verr.Add (.act a) actionNameEmptyMsg else verr
  let verr := if a.Routes.length = 0 then verr.Add (.act a) noRouteMsg else verr
  bindOE (outerRespLoopFuel n a.Responses 0 verr a.Responses) fun verr =>
  bindOE (validateParamsFuel n a) fun vp =>
  let verr := verr.MergeOpt vp
  bindOE (match a.Payload with
    | Option.none => okOE verr
    | Option.some p =>
      bindOE (attrValidateFuel n p "action payload" (DSLDefinition.act a)) fun e =>
        okOE (verr.MergeOpt e)) fun verr =>
  okOE ((if a.parentSet then verr else verr.Add (.act a) missingParentResourceMsg).AsError)

def actionsLoopFuel (n : Nat) (canonical : String) (found : Bool) (verr : ValidationErrors) :
    List ActionDefinition → Option (Except String (Bool × ValidationErrors))
  | [] => okOE (found, verr)
  | a :: rest =>
    let found := found || a.Name = canonical
    bindOE (actionValidateFuel n a) fun e =>
      actionsLoopFuel n canonical found (verr.MergeOpt e) rest

def resourceValidateFuel (n : Nat) (r : ResourceDefinition)
    (DesignResources : List String) : Option VResult :=
  let verr := ValidationErrors.empty
  let verr := if r.Name = "" then verr.Add (.res r) resourceNameEmptyMsg else verr
  bindOE (actionsLoopFuel n r.CanonicalActionName false verr r.Actions) fun p =>
  let (found, verr) := p
  let verr :=
    if r.CanonicalActionName ≠ "" ∧ found = false then
      verr.Add (.res r) (unknownCanonicalMsg r.CanonicalActionName)
    else verr
  let verr := baseParamsSection r verr
  let verr :=
    if r.ParentName ≠ "" ∧ ¬ DesignResources.contains r.ParentName then
      verr.Add (.res r) (parentNotFoundMsg r.ParentName)
    else verr
  bindOE (respLoopSimpleFuel n verr r.Responses) fun verr =>
  bindOE (match r.Params with
    | Option.none => okOE verr
    | Option.some p =>
      bindOE (attrValidateFuel n p "resource parameters" (DSLDefinition.res r)) fun e =>
        okOE (verr.MergeOpt e)) fun verr =>
  okOE verr.AsError

def resourcesLoopFuel (n : Nat) (DesignResources : List String) (verr : ValidationErrors) :
    List ResourceDefinition → Option (Except String ValidationErrors)
  | [] => okOE verr
  | r :: rest =>
    bindOE (resourceValidateFuel n r DesignResources) fun e =>
      resourcesLoopFuel n DesignResources (verr.MergeOpt e) rest

def viewValidateFuel (n : Nat) (v : ViewDefinition) : Option VResult :=
  match v with
  | .mk parentSet attr name =>
    let verr :=
      if parentSet then ValidationErrors.empty
      else ValidationErrors.empty.Add (.view (.mk parentSet attr name)) viewNoParentMsg
    bindOE (attrValidateFuel n attr "" (.view (.mk parentSet attr name))) fun e =>
      okOE (verr.MergeOpt e).AsError

def viewsLoopFuel (n : Nat) (verr : ValidationErrors) :
    ViewList → Option (Except String ValidationErrors)
  | .nil => okOE verr
  | .cons _ v rest =>
    bindOE (viewValidateFuel n v) fun e => viewsLoopFuel n (verr.MergeOpt e) rest

def mtAttrsLoopFuel (n : Nat) (m : MediaTypeDefinition) (verr : ValidationErrors) :
    AttrList → Option (Except String ValidationErrors)
  | .nil => okOE verr
  | .cons nm att rest =>
    match att with
    | .null => errOE nilDerefMsg
    | .mk attDef =>
      bindOE (attrValidateFuel n attDef ("attribute " ++ nm) (.mt m)) fun e =>
      let verr := verr.MergeOpt e
      if attDef.view ≠ "" then
        match attDef.type with
        | .some (DataType.mediaT cmt) =>
          let verr :=
            if cmt.views.hasName attDef.view then verr
            else verr.Add (.mt m) (attrViewUnknownMsg nm attDef.view)
          mtAttrsLoopFuel n m verr rest
        | _ => errOE nilDerefMsg
      else mtAttrsLoopFuel n m verr rest

def mediaTypeValidateFuel (n : Nat) (m : MediaTypeDefinition) :
    Option (Except String (MediaTypeDefinition × Option ValidationErrors)) :=
  bindOE (userTypeValidateFuel n m.ut "" (.mt m)) fun e =>
  let verr := ValidationErrors.empty.MergeOpt e
  let verr :=
    if m.identifier ≠ "" then
      if mimeParseOk m.identifier then verr else verr.Add (.mt m) invalidMediaIdMsg
    else verr
  let m := mtDefaulted m
  match m.typeOpt with
  | .none => errOE nilDerefMsg
  | .some t =>
    bindOE (mtTypeSectionFuel n m verr t) fun p =>
    let (verr, obj) := p
    bindOE (match obj with
      | Option.none => okOE verr
      | Option.some o => mtAttrsLoopFuel n m verr o) fun verr =>
    bindOE (viewsLoopFuel n verr m.views) fun verr =>
    bindOE (Option.some (linksLoop verr m.links)) fun verr =>
    okOE (m, verr.AsError)

def mediaTypesLoopFuel (n : Nat) (verr : ValidationErrors) :
    List MediaTypeDefinition → Option (Except String ValidationErrors)
  | [] => okOE verr
  | m :: rest =>
    bindOE (mediaTypeValidateFuel n m) fun p =>
      mediaTypesLoopFuel n (verr.MergeOpt p.2) rest

def typesLoopFuel (n : Nat) (a : APIDefinition) (verr : ValidationErrors) :
    List UserTypeDefinition → Option (Except String ValidationErrors)
  | [] => okOE verr
  | t :: rest =>
    bindOE (userTypeValidateFuel n t "" (.api a)) fun e =>
      typesLoopFuel n a (verr.MergeOpt e) rest

def apiValidateFuel (n : Nat) (a : APIDefinition)
    (DesignResources : List String) : Option VResult :=
  bindOE (match a.BaseParams with
    | Option.none => errOE nilDerefMsg
    | Option.some bp =>
      bindOE (attrValidateFuel n bp "base parameters" (.api a)) fun e =>
        okOE (ValidationErrors.empty.MergeOpt e)) fun verr =>
  bindOE (resourcesLoopFuel n DesignResources verr a.Resources) fun verr =>
  bindOE (mediaTypesLoopFuel n verr a.MediaTypes) fun verr =>
  bindOE (typesLoopFuel n a verr a.Types) fun verr =>
  bindOE (respLoopSimpleFuel n verr a.Responses) fun verr =>
  okOE verr.AsError

/- ===================================================================
   Theorems.  Shared lemmas first, then one theorem per claim (with the
   witness or counterexample its status requires).
   =================================================================== -/

theorem GoErrList.push_toList (l : GoErrList) (e : GoError) :
    (l.push e).toList = l.toList ++ [e] := by
  match l with
  | .nil => rfl
  | .cons x rest => simp [GoErrList.push, GoErrList.toList, GoErrList.push_toList rest e]

theorem chainReport_multi (ts : List TypedError) (l : GoErrList) :
    chainReport (Option.some (GoError.multi l)) ts =
      Option.some (GoError.multi (ts.foldl (fun acc t => acc.push (.typed t)) l)) := by
  induction ts generalizing l with
  | nil => rfl
  | cons t ts ih => simp [chainReport, ReportError, ih]

theorem foldl_push_toList (ts : List TypedError) (l : GoErrList) :
    (ts.foldl (fun acc t => acc.push (GoError.typed t)) l).toList =
      l.toList ++ ts.map GoError.typed := by
  induction ts generalizing l with
  | nil => simp
  | cons t ts ih => simp [ih, GoErrList.push_toList]

/-- C1. The claim says the walker records every violation as a recoverable
entry and continues, and that no input to Validate aborts.  On c1api — an
action parameter whose attribute has a nil type — ValidateParams records
"type of parameter p cannot be nil" and then evaluates p.Type.Kind() on the
nil type, a nil pointer dereference that aborts the whole walk. -/
theorem c1_validate_crashes_on_nil_param_type :
    APIDefinition.Validate c1api [] = Except.error nilDerefMsg := rfl

/-- C2. Titles evaluated over the whole ten-kind taxonomy: the switch
covers eight kinds, but ErrInvalidFormat and ErrInvalidPattern — members of
the taxonomy — fall through to the fatal unknown-kind branch. -/
theorem c2_title_table_eval :
    ErrorKind.Title ErrInvalidFormat = Option.none ∧
    ErrorKind.Title ErrInvalidPattern = Option.none ∧
    ErrorKind.Title ErrInvalidParamType = Option.some "invalid parameter value" ∧
    ErrorKind.Title ErrMissingParam = Option.some "missing required parameter" ∧
    ErrorKind.Title ErrInvalidAttributeType = Option.some "invalid attribute type" ∧
    ErrorKind.Title ErrMissingAttribute = Option.some "missing required attribute" ∧
    ErrorKind.Title ErrMissingHeader = Option.some "missing required HTTP header" ∧
    ErrorKind.Title ErrInvalidEnumValue = Option.some "invalid value" ∧
    ErrorKind.Title ErrInvalidRange = Option.some "invalid value range" ∧
    ErrorKind.Title ErrInvalidLength = Option.some "invalid value length" := by
  exact ⟨rfl, rfl, rfl, rfl, rfl, rfl, rfl, rfl, rfl, rfl⟩

/-- C3. The claim says validation reports exactly one failure (the
unmatched id variable) for base path /things/\x7bid\x7d with an empty base
parameters object; the code reports none: with a single path variable the
match list has length one, the `len(vs) > 1` guard fails, and the
empty-parameters else branch is silent. -/
theorem c3_base_path_variable_unchecked :
    ResourceDefinition.Validate c3res [] = Except.ok Option.none := rfl

/-- C5 counterexample. The accumulated value returned by
InvalidParamTypeError("page", "abc", "integer", nil) does not serialize to
the claimed object form: being a one-element MultiError it serializes to
that form wrapped in square brackets. -/
theorem c5_value_serializes_with_brackets :
    GoError.errString c5val ≠ Option.some c5elemStr ∧
    GoError.errString c5val = Option.some ("[" ++ c5elemStr ++ "]") := by
  exact ⟨by decide, rfl⟩

/-- C5 as amended: the call yields a one-element accumulated value whose
sole element is a typed error with kind title "invalid parameter value";
the sole element serializes to exactly the claimed object form (the message
quoting value and name via their Go representation, no escaping added by
the serializer), and the accumulated value itself serializes as the
one-element array of that form. -/
theorem c5_invalid_param_type_amended :
    c5val = GoError.multi (.cons (.typed c5terr) .nil) ∧
    ErrorKind.Title c5terr.Kind = Option.some "invalid parameter value" ∧
    TypedError.Error c5terr = Option.some c5elemStr ∧
    GoError.errString c5val = Option.some ("[" ++ c5elemStr ++ "]") := by
  exact ⟨rfl, rfl, rfl, rfl⟩

/-- C6. ReportError: a nil error becomes a singleton; a MultiError gets the
new failure appended as last element with the existing elements unchanged
and in order; any other error value becomes the first element of a fresh
two-element sequence; and a MultiError produced by chaining the helpers
from nil contains exactly the reported typed errors — never a nested
MultiError. -/
theorem c6_report_error_coercion :
    (∀ e2, ReportError Option.none e2 = GoError.multi (GoErrList.cons e2 GoErrList.nil)) ∧
    (∀ l e2, ReportError (Option.some (GoError.multi l)) e2 = GoError.multi (l.push e2) ∧
      (l.push e2).toList = l.toList ++ [e2]) ∧
    (∀ e e2, (∀ l, e ≠ GoError.multi l) →
      ReportError (Option.some e) e2 =
        GoError.multi (GoErrList.cons e (GoErrList.cons e2 GoErrList.nil))) ∧
    (∀ ts : List TypedError, ts ≠ [] → ∃ l, chainReport Option.none ts = Option.some (GoError.multi l) ∧
      l.toList = ts.map GoError.typed ∧ ∀ x ∈ l.toList, ∀ m, x ≠ GoError.multi m) := by
  refine ⟨fun e2 => rfl, fun l e2 => ⟨rfl, GoErrList.push_toList l e2⟩, ?_, ?_⟩
  · intro e e2 h
    cases e with
    | typed t => rfl
    | plain m => rfl
    | multi l => exact absurd rfl (h l)
  · intro ts h
    cases ts with
    | nil => exact absurd rfl h
    | cons t ts =>
      refine ⟨([t] ++ ts).foldl (fun acc t => acc.push (GoError.typed t)) GoErrList.nil, ?_, ?_, ?_⟩
      · calc chainReport Option.none (t :: ts)
            = chainReport (Option.some (GoError.multi (GoErrList.cons (GoError.typed t) GoErrList.nil))) ts := rfl
          _ = _ := by
              rw [chainReport_multi]
              simp [GoErrList.push, List.foldl]
      · simp [foldl_push_toList, GoErrList.toList]
      · intro x hx m
        rw [foldl_push_toList] at hx
        simp [GoErrList.toList] at hx
        rcases hx with hx | ⟨t2, _, hx⟩ <;> subst hx <;> simp

/-- C6 witness: the theorem applied to concrete typed failures. -/
theorem c6_report_error_coercion_witness :
    ReportError (Option.some (GoError.typed tA)) (GoError.typed tB) =
      GoError.multi (GoErrList.cons (GoError.typed tA)
        (GoErrList.cons (GoError.typed tB) GoErrList.nil)) ∧
    ∃ l, chainReport Option.none [tA, tB] = Option.some (GoError.multi l) ∧
      l.toList = [GoError.typed tA, GoError.typed tB] ∧
      ∀ x ∈ l.toList, ∀ m, x ≠ GoError.multi m := by
  refine ⟨c6_report_error_coercion.2.2.1 (GoError.typed tA) (GoError.typed tB)
    (by intro l h; cases h), ?_⟩
  have := c6_report_error_coercion.2.2.2 [tA, tB] (by simp)
  simpa using this

theorem errLines_isSome (es : List String) :
    ∀ ds : List DSLDefinition, es.length ≤ ds.length → (errLines es ds).isSome := by
  induction es with
  | nil => intro ds h; simp [errLines]
  | cons e es ih =>
    intro ds h
    cases ds with
    | nil => simp at h
    | cons d ds =>
      simp [errLines]
      have := ih ds (by simpa using h)
      cases herr : errLines es ds with
      | none => rw [herr] at this; simp at this
      | some r => simp

/-- C9. Every ValidationErrors value reachable from the empty set through
Add and Merge keeps its two lists at equal length, entries pairing by
index, and under that invariant the per-index Definitions lookup of
Error() is always in bounds (the serialization never panics). -/
theorem c9_parallel_lists_invariant (v : ValidationErrors) (h : ReachableVE v) :
    v.Errors.length = v.Definitions.length ∧ (v.ErrorString).isSome := by
  have hlen : v.Errors.length = v.Definitions.length := by
    induction h with
    | empty => rfl
    | add v d msg _ ih => simp [ValidationErrors.Add, ih]
    | merge v w _ _ ih1 ih2 => simp [ValidationErrors.Merge, ih1, ih2]
  refine ⟨hlen, ?_⟩
  unfold ValidationErrors.ErrorString
  have := errLines_isSome v.Errors v.Definitions (le_of_eq hlen)
  cases herr : errLines v.Errors v.Definitions with
  | none => rw [herr] at this; simp at this
  | some r => simp

/-- C9 witness: the invariant at a concrete value reached by two Adds and a
Merge. -/
theorem c9_parallel_lists_invariant_witness :
    v9.Errors.length = v9.Definitions.length ∧ (v9.ErrorString).isSome :=
  c9_parallel_lists_invariant v9
    (ReachableVE.merge _ _ (ReachableVE.add _ _ _ ReachableVE.empty)
      (ReachableVE.add _ _ _ ReachableVE.empty))

theorem exbind_ok {α β : Type} {x : Except String α} {f : α → Except String β} {b : β}
    (h : x >>= f = Except.ok b) : ∃ a, x = Except.ok a ∧ f a = Except.ok b := by
  cases x with
  | error s => simp [Bind.bind, Except.bind] at h
  | ok a => exact ⟨a, rfl, by simpa [Bind.bind, Except.bind] using h⟩

theorem mergeOpt_errors (verr : ValidationErrors) (o : Option ValidationErrors) :
    (verr.MergeOpt o).Errors = verr.Errors ++ msgsOpt o := by
  cases o <;> simp [ValidationErrors.MergeOpt, ValidationErrors.Merge, msgsOpt]

theorem asError_of_mem {verr : ValidationErrors} {x : String} (h : x ∈ verr.Errors) :
    verr.AsError = Option.some verr := by
  unfold ValidationErrors.AsError
  simp [List.length_pos, List.ne_nil_of_mem h]

/-- UserTypeDefinition.Validate on a user type whose attribute has a nil
type always reports "attribute type is nil". -/
theorem utValidate_nilType (u : UserTypeDefinition) (ctx : String) (p : DSLDefinition)
    (hty : u.attr.type = DTOpt.none) :
    ∃ v, u.Validate ctx p = Except.ok (Option.some v) ∧ attrTypeNilMsg ∈ v.Errors := by
  match u with
  | .mk (.mk ty vals vw) tn =>
    have h2 : ty = DTOpt.none := hty
    subst h2
    by_cases htn : tn = ""
    · exact ⟨⟨[userTypeNameMsg ctx, attrTypeNilMsg], [p, p]⟩,
        by simp [UserTypeDefinition.Validate, AttributeDefinition.Validate, htn,
          Bind.bind, Except.bind, pure, Except.pure, ValidationErrors.MergeOpt,
          ValidationErrors.Merge, ValidationErrors.Add, ValidationErrors.AsError,
          ValidationErrors.empty], by simp⟩
    · exact ⟨⟨[attrTypeNilMsg], [p]⟩,
        by simp [UserTypeDefinition.Validate, AttributeDefinition.Validate, htn,
          Bind.bind, Except.bind, pure, Except.pure, ValidationErrors.MergeOpt,
          ValidationErrors.Merge, ValidationErrors.Add, ValidationErrors.AsError,
          ValidationErrors.empty], by simp⟩

theorem viewsLoop_prefix (vl : ViewList) :
    ∀ verr v', viewsLoop verr vl = Except.ok v' → ∃ g, v'.Errors = verr.Errors ++ g := by
  match vl with
  | .nil =>
    intro verr v' h
    simp [viewsLoop] at h
    exact ⟨[], by simp [← h]⟩
  | .cons n v rest =>
    intro verr v' h
    simp only [viewsLoop] at h
    rcases exbind_ok h with ⟨e, _, h⟩
    rcases viewsLoop_prefix rest _ _ h with ⟨g, hg⟩
    exact ⟨msgsOpt e ++ g, by rw [hg, mergeOpt_errors, List.append_assoc]⟩

theorem linksLoop_prefix (ll : LinkList) :
    ∀ verr v', linksLoop verr ll = Except.ok v' → ∃ g, v'.Errors = verr.Errors ++ g := by
  match ll with
  | .nil =>
    intro verr v' h
    simp [linksLoop] at h
    exact ⟨[], by simp [← h]⟩
  | .cons n l rest =>
    intro verr v' h
    simp only [linksLoop] at h
    rcases exbind_ok h with ⟨e, _, h⟩
    rcases linksLoop_prefix rest _ _ h with ⟨g, hg⟩
    exact ⟨msgsOpt e ++ g, by rw [hg, mergeOpt_errors, List.append_assoc]⟩

theorem mtDefaulted_of_empty (m : MediaTypeDefinition) (hid : m.identifier = "")
    (hty : m.typeOpt = DTOpt.none) :
    (mtDefaulted m).identifier = "plain/text" ∧
    (mtDefaulted m).typeOpt = DTOpt.some (DataType.primitive Primitive.pstring) := by
  match m with
  | .mk (.mk (.mk ty vals vw) tn) id vs ls =>
    have h1 : id = "" := hid
    have h2 : ty = DTOpt.none := hty
    subst h1; subst h2
    exact ⟨rfl, rfl⟩

theorem mtDefaulted_idem (m : MediaTypeDefinition) (hid : ¬ m.identifier = "")
    (hty : ¬ m.typeOpt = DTOpt.none) : mtDefaulted m = m := by
  match m with
  | .mk (.mk (.mk ty vals vw) tn) id vs ls =>
    have h1 : ¬ id = "" := hid
    cases ty with
    | none => exact absurd rfl hty
    | some t =>
      simp [mtDefaulted, MediaTypeDefinition.identifier, MediaTypeDefinition.typeOpt,
        MediaTypeDefinition.ut, UserTypeDefinition.attr, AttributeDefinition.type, h1]

/-- Whatever else happens, a successful MediaTypeDefinition.Validate returns
the defaulted media type (the only mutation of the walk). -/
theorem mtValidate_shape (m : MediaTypeDefinition) :
    ∀ m2 e, m.Validate = Except.ok (m2, e) → m2 = mtDefaulted m := by
  intro m2 e h
  unfold MediaTypeDefinition.Validate at h
  rcases exbind_ok h with ⟨e1, _, h⟩
  dsimp only at h
  cases hty : (mtDefaulted m).typeOpt with
  | none => rw [hty] at h; simp at h
  | some t =>
    rw [hty] at h
    rcases exbind_ok h with ⟨⟨verr2, obj⟩, _, h⟩
    dsimp only at h
    cases obj with
    | none =>
      rcases exbind_ok h with ⟨y, _, h⟩
      rcases exbind_ok h with ⟨verr4, _, h⟩
      rcases exbind_ok h with ⟨verr5, _, h⟩
      simp only [pure, Except.pure, Except.ok.injEq, Prod.mk.injEq] at h
      exact h.1.symm
    | some o =>
      rcases exbind_ok h with ⟨y, _, h⟩
      rcases exbind_ok h with ⟨verr4, _, h⟩
      rcases exbind_ok h with ⟨verr5, _, h⟩
      simp only [pure, Except.pure, Except.ok.injEq, Prod.mk.injEq] at h
      exact h.1.symm

/-- C4 counterexample. The claim says a media type with empty identifier
and unset type has the defaults applied without the absent type being
reported; in fact the embedded user-type validation runs before the
defaulting and records "attribute type is nil". -/
theorem c4_counterexample_nil_type_reported :
    MediaTypeDefinition.Validate c4mt =
      Except.ok (c4mtAfter, Option.some ⟨[attrTypeNilMsg], [DSLDefinition.mt c4mt]⟩) ∧
    attrTypeNilMsg ∈ mtMsgs (MediaTypeDefinition.Validate c4mt) := by
  exact ⟨rfl, by decide⟩

/-- C4 as amended: for every media type with an empty identifier and an
unset underlying type, a successful Validate returns it with identifier
"plain/text" and type the primitive string; the defaulting happens after
the embedded user-type validation — which therefore reports "attribute type
is nil" on the first run — but before the remaining checks that inspect the
type; and it is applied exactly once: a second Validate returns the media
type unchanged. -/
theorem c4_defaulting_amended (m : MediaTypeDefinition)
    (hid : m.identifier = "") (hty : m.typeOpt = DTOpt.none) :
    ∀ m2 e, m.Validate = Except.ok (m2, e) →
      m2.identifier = "plain/text" ∧
      m2.typeOpt = DTOpt.some (DataType.primitive Primitive.pstring) ∧
      attrTypeNilMsg ∈ msgsOpt e ∧
      ∀ m3 e2, m2.Validate = Except.ok (m3, e2) → m3 = m2 := by
  intro m2 e h
  have hshape := mtValidate_shape m m2 e h
  have hdef := mtDefaulted_of_empty m hid hty
  subst hshape
  refine ⟨hdef.1, hdef.2, ?_, ?_⟩
  · unfold MediaTypeDefinition.Validate at h
    rcases exbind_ok h with ⟨e1, h1, h⟩
    obtain ⟨v1, hu, hmem⟩ := utValidate_nilType m.ut "" (.mt m) hty
    rw [hu] at h1
    injection h1 with h1
    subst h1
    dsimp only at h
    rw [hid] at h
    rw [hdef.2] at h
    simp only [ne_eq, not_true_eq_false, if_false, ite_false, reduceIte] at h
    rcases exbind_ok h with ⟨x, hsec, h⟩
    have hx : x = (ValidationErrors.empty.MergeOpt (Option.some v1), (Option.none : Option AttrList)) := by
      simp only [mtTypeSection] at hsec
      exact (Except.ok.inj hsec).symm
    subst hx
    dsimp only at h
    rcases exbind_ok h with ⟨y, hy, h⟩
    have hy2 : y = ValidationErrors.empty.MergeOpt (Option.some v1) := (Except.ok.inj hy).symm
    subst hy2
    rcases exbind_ok h with ⟨verr4, hviews, h⟩
    rcases exbind_ok h with ⟨verr5, hlinks, h⟩
    rcases viewsLoop_prefix _ _ _ hviews with ⟨g1, hg1⟩
    rcases linksLoop_prefix _ _ _ hlinks with ⟨g2, hg2⟩
    have hmem5 : attrTypeNilMsg ∈ verr5.Errors := by
      rw [hg2, hg1, mergeOpt_errors]
      simp [msgsOpt, ValidationErrors.empty, hmem]
    simp only [pure, Except.pure, Except.ok.injEq, Prod.mk.injEq] at h
    rw [← h.2, asError_of_mem hmem5]
    simpa [msgsOpt] using hmem5
  · intro m3 e2 h2
    have := mtValidate_shape _ _ _ h2
    rw [this, mtDefaulted_idem]
    · rw [hdef.1]; simp
    · rw [hdef.2]; simp

/-- C4 witness: the amended theorem applied to the concrete media type
c4mt. -/
theorem c4_defaulting_amended_witness :
    c4mtAfter.identifier = "plain/text" ∧
    c4mtAfter.typeOpt = DTOpt.some (DataType.primitive Primitive.pstring) ∧
    attrTypeNilMsg ∈ msgsOpt (Option.some ⟨[attrTypeNilMsg], [DSLDefinition.mt c4mt]⟩) ∧
    ∀ m3 e2, c4mtAfter.Validate = Except.ok (m3, e2) → m3 = c4mtAfter :=
  c4_defaulting_amended c4mt rfl rfl c4mtAfter
    (Option.some ⟨[attrTypeNilMsg], [DSLDefinition.mt c4mt]⟩) rfl

theorem digitChar_isDigit {k : Nat} (h : k < 10) : (digitChar k).isDigit = true := by
  interval_cases k <;> decide

theorem digitChar_toNat {k : Nat} (h : k < 10) : (digitChar k).toNat - 48 = k := by
  interval_cases k <;> decide

theorem natToDecGo_small {n : Nat} (fuel : Nat) (acc : List Char) (h : n < 10) :
    natToDecGo fuel n acc = digitChar n :: acc := by
  cases fuel <;> simp [natToDecGo, h]

theorem natToDecGo_shift (fuel : Nat) :
    ∀ n acc, n ≤ fuel → natToDecGo fuel n acc = natToDecGo n n [] ++ acc := by
  induction fuel using Nat.strong_induction_on with
  | _ fuel ih =>
    intro n acc h
    by_cases h10 : n < 10
    · rw [natToDecGo_small _ _ h10, natToDecGo_small _ _ h10]
      rfl
    · cases fuel with
      | zero => omega
      | succ f =>
        cases n with
        | zero => omega
        | succ k =>
          have hk : (k + 1) / 10 ≤ k := by omega
          have h1 : (k + 1) / 10 ≤ f := by omega
          calc natToDecGo (f + 1) (k + 1) acc
              = natToDecGo f ((k + 1) / 10) (digitChar ((k + 1) % 10) :: acc) := by
                simp [natToDecGo, h10]
            _ = natToDecGo ((k + 1) / 10) ((k + 1) / 10) [] ++ (digitChar ((k + 1) % 10) :: acc) :=
                ih f (by omega) _ _ h1
            _ = (natToDecGo ((k + 1) / 10) ((k + 1) / 10) [] ++ [digitChar ((k + 1) % 10)]) ++ acc := by
                simp
            _ = natToDecGo k ((k + 1) / 10) [digitChar ((k + 1) % 10)] ++ acc := by
                rw [ih k (by omega) _ _ hk]
            _ = natToDecGo (k + 1) (k + 1) [] ++ acc := by
                simp [natToDecGo, h10]

theorem natToDecGo_all_digits (fuel : Nat) :
    ∀ n acc, n ≤ fuel → (∀ c ∈ acc, c.isDigit = true) →
      ∀ c ∈ natToDecGo fuel n acc, c.isDigit = true := by
  induction fuel with
  | zero =>
    intro n acc h hacc c hc
    have : n = 0 := Nat.le_zero.mp h
    subst this
    simp [natToDecGo] at hc
    rcases hc with hc | hc
    · subst hc; exact digitChar_isDigit (by omega)
    · exact hacc c hc
  | succ fuel ih =>
    intro n acc h hacc c hc
    by_cases h10 : n < 10
    · rw [natToDecGo_small _ _ h10] at hc
      rcases List.mem_cons.mp hc with hc | hc
      · subst hc; exact digitChar_isDigit h10
      · exact hacc c hc
    · simp only [natToDecGo, h10, if_false, reduceIte] at hc
      refine ih (n / 10) _ (by omega) ?_ c hc
      intro c2 hc2
      rcases List.mem_cons.mp hc2 with hc2 | hc2
      · subst hc2; exact digitChar_isDigit (Nat.mod_lt _ (by omega))
      · exact hacc c2 hc2

theorem natToDecGo_ne_nil (fuel : Nat) : ∀ n acc, natToDecGo fuel n acc ≠ [] := by
  induction fuel with
  | zero => intro n acc; simp [natToDecGo]
  | succ fuel ih =>
    intro n acc
    by_cases h10 : n < 10
    · simp [natToDecGo, h10]
    · simp only [natToDecGo, h10, if_false, reduceIte]
      exact ih _ _

theorem natToDec_last_digit (s : Nat) :
    ∃ c, (natToDec s).data.getLast? = Option.some c ∧ c.isDigit = true := by
  have hne := natToDecGo_ne_nil s s []
  have hdig := natToDecGo_all_digits s s [] (Nat.le_refl s) (by simp)
  refine ⟨(natToDecGo s s []).getLast hne, ?_, hdig _ (List.getLast_mem hne)⟩
  simpa [natToDec] using List.getLast?_eq_getLast_of_ne_nil hne

theorem decValFrom_nil (v : Nat) : decValFrom v [] = v := rfl

theorem decValFrom_cons (v : Nat) (c : Char) (cs : List Char) :
    decValFrom v (c :: cs) = decValFrom (v * 10 + (c.toNat - 48)) cs := rfl

theorem decValFrom_append (xs : List Char) :
    ∀ v ys, decValFrom v (xs ++ ys) = decValFrom (decValFrom v xs) ys := by
  induction xs with
  | nil => intro v ys; rfl
  | cons c cs ih =>
    intro v ys
    rw [List.cons_append, decValFrom_cons, decValFrom_cons]
    exact ih _ _

theorem natToDec_roundtrip (n : Nat) : decValFrom 0 (natToDecGo n n []) = n := by
  induction n using Nat.strong_induction_on with
  | _ n ih =>
    by_cases h10 : n < 10
    · rw [natToDecGo_small _ _ h10, decValFrom_cons, decValFrom_nil, digitChar_toNat h10]
      omega
    · cases hn : n with
      | zero => omega
      | succ k =>
        subst hn
        have hdivlt : (k + 1) / 10 < k + 1 := Nat.div_lt_self (by omega) (by omega)
        have hk : (k + 1) / 10 ≤ k := by omega
        calc decValFrom 0 (natToDecGo (k + 1) (k + 1) [])
            = decValFrom 0 (natToDecGo k ((k + 1) / 10) [digitChar ((k + 1) % 10)]) := by
              simp [natToDecGo, h10]
          _ = decValFrom 0 (natToDecGo ((k + 1) / 10) ((k + 1) / 10) [] ++ [digitChar ((k + 1) % 10)]) := by
              rw [natToDecGo_shift k _ _ hk]
          _ = decValFrom ((k + 1) / 10) [digitChar ((k + 1) % 10)] := by
              rw [decValFrom_append, ih _ hdivlt]
          _ = k + 1 := by
              rw [decValFrom_cons, decValFrom_nil, digitChar_toNat (Nat.mod_lt _ (by omega))]
              omega

theorem natToDec_inj {a b : Nat} (h : natToDec a = natToDec b) : a = b := by
  have hdata : natToDecGo a a [] = natToDecGo b b [] := by
    have := congrArg String.data h
    simpa [natToDec] using this
  have := congrArg (decValFrom 0) hdata
  rwa [natToDec_roundtrip, natToDec_roundtrip] at this

theorem lastChar_append (a b : String) (hb : b.data ≠ []) :
    lastChar (a ++ b) = lastChar b := by
  unfold lastChar
  rw [String.data_append]
  exact List.getLast?_append_of_ne_nil _ hb

theorem benignMsg_append (a : String) {b : String} (hb : benignMsg b) :
    benignMsg (a ++ b) := by
  rcases hb with ⟨c, hc, h1, h2⟩
  have hne : b.data ≠ [] := by
    intro h
    rw [lastChar, h] at hc
    simp at hc
  exact ⟨c, by rw [lastChar_append a b hne]; exact hc, h1, h2⟩

theorem benign_attrTypeNil : benignMsg attrTypeNilMsg := ⟨'l', by decide⟩

theorem benign_onlyObjects (ctx : String) : benignMsg (onlyObjectsRequiredMsg ctx) :=
  benignMsg_append ctx ⟨'n', by decide⟩

theorem benign_requiredField (ctx n : String) : benignMsg (requiredFieldMsg ctx n) := by
  unfold requiredFieldMsg
  rw [String.append_assoc, String.append_assoc]
  exact benignMsg_append ctx (benignMsg_append _ (benignMsg_append n ⟨'t', by decide⟩))

theorem benign_paramNoName : benignMsg paramNoNameMsg := ⟨'e', by decide⟩

theorem benign_paramNil (n : String) : benignMsg (paramNilMsg n) := by
  unfold paramNilMsg
  rw [String.append_assoc]
  exact benignMsg_append _ (benignMsg_append n ⟨'l', by decide⟩)

theorem benign_paramTypeNil (n : String) : benignMsg (paramTypeNilMsg n) := by
  unfold paramTypeNilMsg
  rw [String.append_assoc]
  exact benignMsg_append _ (benignMsg_append n ⟨'l', by decide⟩)

theorem benign_paramObject (n : String) : benignMsg (paramObjectMsg n) := by
  unfold paramObjectMsg
  rw [String.append_assoc]
  exact benignMsg_append _ (benignMsg_append n ⟨'t', by decide⟩)

theorem benign_paramsNotObject : benignMsg paramsNotObjectMsg := ⟨'t', by decide⟩

theorem benign_actionNameEmpty : benignMsg actionNameEmptyMsg := ⟨'y', by decide⟩

theorem benign_noRoute : benignMsg noRouteMsg := ⟨'n', by decide⟩

theorem benign_missingParent : benignMsg missingParentResourceMsg := ⟨'e', by decide⟩

theorem statusMsg_lastChar : lastChar statusNotDefinedMsg = Option.some 'd' := by decide

theorem dupMsg_lastChar (s : Nat) :
    ∃ c, lastChar (dupRespMsg s) = Option.some c ∧ c.isDigit = true := by
  rcases natToDec_last_digit s with ⟨c, hc, hd⟩
  have hne : (natToDec s).data ≠ [] := by
    intro h
    rw [h] at hc
    simp at hc
  exact ⟨c, by rw [dupRespMsg, lastChar_append _ _ hne]; exact hc, hd⟩

theorem benign_ne_dup {m : String} (hm : benignMsg m) (s : Nat) : m ≠ dupRespMsg s := by
  intro h
  rcases hm with ⟨c, hc, h1, _⟩
  rcases dupMsg_lastChar s with ⟨c2, hc2, h2⟩
  rw [h, hc2] at hc
  cases hc
  rw [h2] at h1
  cases h1

theorem benign_ne_status {m : String} (hm : benignMsg m) : m ≠ statusNotDefinedMsg := by
  intro h
  rcases hm with ⟨c, hc, _, h2⟩
  rw [h, statusMsg_lastChar] at hc
  cases hc
  exact h2 rfl

theorem status_ne_dup (s : Nat) : statusNotDefinedMsg ≠ dupRespMsg s := by
  intro h
  rcases dupMsg_lastChar s with ⟨c2, hc2, h2⟩
  rw [← h, statusMsg_lastChar] at hc2
  cases hc2
  cases h2

theorem dupMsg_inj {a b : Nat} (h : dupRespMsg a = dupRespMsg b) : a = b := by
  have hd := congrArg String.data h
  rw [dupRespMsg, dupRespMsg, String.data_append, String.data_append] at hd
  have := List.append_cancel_left hd
  exact natToDec_inj (String.ext this)

theorem count_eq_zero_of_all_ne {l : List String} {x : String} (h : ∀ m ∈ l, m ≠ x) :
    l.count x = 0 :=
  List.count_eq_zero.mpr fun hx => h x hx rfl

theorem add_errors (verr : ValidationErrors) (d : DSLDefinition) (msg : String) :
    (verr.Add d msg).Errors = verr.Errors ++ [msg] := rfl

theorem requiredNamesCheck_append (names : List String) :
    ∀ ctx parent o verr, ∃ g,
      (requiredNamesCheck ctx parent o verr names).Errors = verr.Errors ++ g ∧
      ∀ m ∈ g, benignMsg m := by
  induction names with
  | nil => intro ctx parent o verr; exact ⟨[], by simp [requiredNamesCheck], by simp⟩
  | cons n rest ih =>
    intro ctx parent o verr
    simp only [requiredNamesCheck]
    by_cases hf : (match o with
      | Option.some fields => fields.hasName n
      | Option.none => false) = true
    · simp only [hf, if_true]
      exact ih ctx parent o verr
    · simp only [hf, Bool.false_eq_true, if_false]
      rcases ih ctx parent o (verr.Add parent (requiredFieldMsg ctx n)) with ⟨g, hg, hb⟩
      refine ⟨requiredFieldMsg ctx n :: g, ?_, ?_⟩
      · rw [hg, add_errors]
        simp
      · intro m hm
        rcases List.mem_cons.mp hm with hm | hm
        · subst hm; exact benign_requiredField ctx n
        · exact hb m hm

theorem validationsCheck_append (validations : List ValidationDefinition) :
    ∀ ctx parent o verr, ∃ g,
      (validationsCheck ctx parent o verr validations).Errors = verr.Errors ++ g ∧
      ∀ m ∈ g, benignMsg m := by
  induction validations with
  | nil => intro ctx parent o verr; exact ⟨[], by simp [validationsCheck], by simp⟩
  | cons v rest ih =>
    intro ctx parent o verr
    cases v with
    | otherRule => simpa only [validationsCheck] using ih ctx parent o verr
    | required names =>
      simp only [validationsCheck]
      by_cases ho : o.isSome
      · simp only [ho, if_true]
        rcases requiredNamesCheck_append names ctx parent o verr with ⟨g1, hg1, hb1⟩
        rcases ih ctx parent o (requiredNamesCheck ctx parent o verr names) with ⟨g2, hg2, hb2⟩
        refine ⟨g1 ++ g2, by rw [hg2, hg1, List.append_assoc], ?_⟩
        intro m hm
        rcases List.mem_append.mp hm with hm | hm
        · exact hb1 m hm
        · exact hb2 m hm
      · simp only [ho, Bool.false_eq_true, if_false]
        rcases requiredNamesCheck_append names ctx parent o
          (verr.Add parent (onlyObjectsRequiredMsg ctx)) with ⟨g1, hg1, hb1⟩
        rcases ih ctx parent o (requiredNamesCheck ctx parent o
          (verr.Add parent (onlyObjectsRequiredMsg ctx)) names) with ⟨g2, hg2, hb2⟩
        refine ⟨onlyObjectsRequiredMsg ctx :: (g1 ++ g2), ?_, ?_⟩
        · rw [hg2, hg1, add_errors]
          simp
        · intro m hm
          rcases List.mem_cons.mp hm with hm | hm
          · subst hm; exact benign_onlyObjects ctx
          · rcases List.mem_append.mp hm with hm | hm
            · exact hb1 m hm
            · exact hb2 m hm

theorem msgsOpt_asError (verr : ValidationErrors) :
    msgsOpt verr.AsError = verr.Errors ∨ msgsOpt verr.AsError = [] := by
  unfold ValidationErrors.AsError
  by_cases h : verr.Errors.length > 0 <;> simp [h, msgsOpt]


theorem validationsCheck_empty_benign (validations : List ValidationDefinition)
    (ctx : String) (parent : DSLDefinition) (o : Option AttrList) :
    ∀ m ∈ (validationsCheck ctx parent o ValidationErrors.empty validations).Errors,
      benignMsg m := by
  intro m hm
  rcases validationsCheck_append validations ctx parent o ValidationErrors.empty with ⟨g, hg, hb⟩
  rw [hg] at hm
  simp only [ValidationErrors.empty, List.nil_append] at hm
  exact hb m hm

mutual
theorem attrValidate_benign (a : AttributeDefinition) :
    ∀ ctx parent r, AttributeDefinition.Validate a ctx parent = Except.ok r →
      ∀ m ∈ msgsOpt r, benignMsg m :=
  match a with
  | .mk ty validations vw => by
    intro ctx parent r h m hm
    cases ty with
    | none =>
      simp only [AttributeDefinition.Validate] at h
      rw [← Except.ok.inj h] at hm
      simp only [msgsOpt, ValidationErrors.Add, ValidationErrors.empty] at hm
      simp at hm
      subst hm
      exact benign_attrTypeNil
    | some t =>
      cases t with
      | object fields =>
        simp only [AttributeDefinition.Validate] at h
        rcases exbind_ok h with ⟨vX, hf, h2⟩
        simp only [pure, Except.pure] at h2
        rw [← Except.ok.inj h2] at hm
        rcases msgsOpt_asError vX with he | he
        · rw [he] at hm
          rcases attrFields_benign fields _ _ _ hf m hm with hin | hb
          · exact validationsCheck_empty_benign validations _ parent _ m hin
          · exact hb
        · rw [he] at hm; cases hm
      | primitive p =>
        simp only [AttributeDefinition.Validate] at h
        rcases exbind_ok h with ⟨vX, hf, h2⟩
        simp only [pure, Except.pure] at h2
        rw [← Except.ok.inj h2] at hm
        rcases msgsOpt_asError vX with he | he
        · rw [he] at hm
          rcases arrayElem_benign (DataType.primitive p) _ _ _ _ hf m hm with hin | hb
          · exact validationsCheck_empty_benign validations _ parent _ m hin
          · exact hb
        · rw [he] at hm; cases hm
      | array e =>
        simp only [AttributeDefinition.Validate] at h
        rcases exbind_ok h with ⟨vX, hf, h2⟩
        simp only [pure, Except.pure] at h2
        rw [← Except.ok.inj h2] at hm
        rcases msgsOpt_asError vX with he | he
        · rw [he] at hm
          rcases arrayElem_benign (DataType.array e) _ _ _ _ hf m hm with hin | hb
          · exact validationsCheck_empty_benign validations _ parent _ m hin
          · exact hb
        · rw [he] at hm; cases hm
      | userT u =>
        simp only [AttributeDefinition.Validate] at h
        rcases exbind_ok h with ⟨vX, hf, h2⟩
        simp only [pure, Except.pure] at h2
        rw [← Except.ok.inj h2] at hm
        rcases msgsOpt_asError vX with he | he
        · rw [he] at hm
          rcases arrayElem_benign (DataType.userT u) _ _ _ _ hf m hm with hin | hb
          · exact validationsCheck_empty_benign validations _ parent _ m hin
          · exact hb
        · rw [he] at hm; cases hm
      | mediaT mm =>
        simp only [AttributeDefinition.Validate] at h
        rcases exbind_ok h with ⟨vX, hf, h2⟩
        simp only [pure, Except.pure] at h2
        rw [← Except.ok.inj h2] at hm
        rcases msgsOpt_asError vX with he | he
        · rw [he] at hm
          rcases arrayElem_benign (DataType.mediaT mm) _ _ _ _ hf m hm with hin | hb
          · exact validationsCheck_empty_benign validations _ parent _ m hin
          · exact hb
        · rw [he] at hm; cases hm
termination_by sizeOf a

theorem attrFields_benign (fields : AttrList) :
    ∀ parent verr v', attrFieldsValidate parent fields verr = Except.ok v' →
      ∀ m ∈ v'.Errors, m ∈ verr.Errors ∨ benignMsg m :=
  match fields with
  | .nil => by
    intro parent verr v' h m hm
    simp only [attrFieldsValidate] at h
    rw [← Except.ok.inj h] at hm
    exact Or.inl hm
  | .cons n att rest => by
    intro parent verr v' h m hm
    cases att with
    | null => simp only [attrFieldsValidate] at h; cases h
    | mk a =>
      simp only [attrFieldsValidate] at h
      rcases exbind_ok h with ⟨rr, hr, h2⟩
      rcases attrFields_benign rest parent _ v' h2 m hm with hin | hb
      · rw [mergeOpt_errors] at hin
        rcases List.mem_append.mp hin with hin | hin
        · exact Or.inl hin
        · exact Or.inr (attrValidate_benign a _ _ _ hr m hin)
      · exact Or.inr hb
termination_by sizeOf fields

theorem arrayElem_benign (t : DataType) :
    ∀ ctx parent verr v', arrayElemValidate ctx parent t verr = Except.ok v' →
      ∀ m ∈ v'.Errors, m ∈ verr.Errors ∨ benignMsg m :=
  match t with
  | .primitive p => by
    intro ctx parent verr v' h m hm
    simp only [arrayElemValidate] at h
    rw [← Except.ok.inj h] at hm
    exact Or.inl hm
  | .object o => by
    intro ctx parent verr v' h m hm
    simp only [arrayElemValidate] at h
    rw [← Except.ok.inj h] at hm
    exact Or.inl hm
  | .array .null => by
    intro ctx parent verr v' h m hm
    simp only [arrayElemValidate] at h
    cases h
  | .array (.mk e) => by
    intro ctx parent verr v' h m hm
    simp only [arrayElemValidate] at h
    rcases exbind_ok h with ⟨rr, hr, h2⟩
    simp only [pure, Except.pure] at h2
    rw [← Except.ok.inj h2, mergeOpt_errors] at hm
    rcases List.mem_append.mp hm with hin | hin
    · exact Or.inl hin
    · exact Or.inr (attrValidate_benign e _ _ _ hr m hin)
  | .userT (.mk (.mk (.some t2) vls vw) tn) => by
    intro ctx parent verr v' h m hm
    simp only [arrayElemValidate] at h
    exact arrayElem_benign t2 ctx parent verr v' h m hm
  | .userT (.mk (.mk .none vls vw) tn) => by
    intro ctx parent verr v' h m hm
    simp only [arrayElemValidate] at h
    rw [← Except.ok.inj h] at hm
    exact Or.inl hm
  | .mediaT (.mk (.mk (.mk (.some t2) vls vw) tn) id vs ls) => by
    intro ctx parent verr v' h m hm
    simp only [arrayElemValidate] at h
    exact arrayElem_benign t2 ctx parent verr v' h m hm
  | .mediaT (.mk (.mk (.mk .none vls vw) tn) id vs ls) => by
    intro ctx parent verr v' h m hm
    simp only [arrayElemValidate] at h
    rw [← Except.ok.inj h] at hm
    exact Or.inl hm
termination_by sizeOf t
end

theorem msgsOpt_asError_eq (verr : ValidationErrors) :
    msgsOpt verr.AsError = verr.Errors := by
  unfold ValidationErrors.AsError
  by_cases h : verr.Errors.length > 0
  · simp [h, msgsOpt]
  · have : verr.Errors = [] := by
      rcases List.eq_nil_or_concat verr.Errors with h0 | ⟨l, x, h0⟩
      · exact h0
      · rw [h0] at h; simp at h
    simp [h, msgsOpt, this]

theorem countStatus_cons (r : ResponseDefinition) (rest : List ResponseDefinition) (s : Nat) :
    countStatus (r :: rest) s = (if r.Status = s then 1 else 0) + countStatus rest s := by
  by_cases h : r.Status = s <;> simp [countStatus, List.filter_cons, h, Nat.add_comm]

theorem count_replicate_msg (n : Nat) (x y : String) :
    (List.replicate n x).count y = if y = x then n else 0 := by
  rcases eq_or_ne y x with h | h
  · simp [h, List.count_replicate]
  · simp [List.count_replicate, h, Ne.symm h]

theorem responseValidate_decomp (r : ResponseDefinition) (o : Option ValidationErrors)
    (h : r.Validate = Except.ok o) :
    ∃ hm, msgsOpt o = hm ++ (if r.Status = 0 then [statusNotDefinedMsg] else []) ∧
      ∀ m ∈ hm, benignMsg m := by
  unfold ResponseDefinition.Validate at h
  cases hH : r.Headers with
  | none =>
    rw [hH] at h
    rcases exbind_ok h with ⟨verr1, h1, h⟩
    simp only [pure, Except.pure, Except.ok.injEq] at h1 h
    subst h1
    rw [← h, msgsOpt_asError_eq]
    by_cases hs : r.Status = 0
    · exact ⟨[], by simp [hs, add_errors, ValidationErrors.empty], by simp⟩
    · exact ⟨[], by simp [hs, ValidationErrors.empty], by simp⟩
  | some ha =>
    rw [hH] at h
    rcases exbind_ok h with ⟨e1, he1, h⟩
    rcases exbind_ok h with ⟨verr1, h1, h⟩
    simp only [pure, Except.pure, Except.ok.injEq] at h1 h
    subst h1
    rw [← h, msgsOpt_asError_eq]
    have hben : ∀ m ∈ (ValidationErrors.empty.MergeOpt e1).Errors, benignMsg m := by
      intro m hm
      rw [mergeOpt_errors] at hm
      simp only [ValidationErrors.empty, List.nil_append] at hm
      exact attrValidate_benign ha _ _ _ he1 m hm
    by_cases hs : r.Status = 0
    · exact ⟨(ValidationErrors.empty.MergeOpt e1).Errors, by simp [hs, add_errors], hben⟩
    · exact ⟨(ValidationErrors.empty.MergeOpt e1).Errors, by simp [hs], hben⟩

theorem responseValidate_counts (r : ResponseDefinition) (o : Option ValidationErrors)
    (h : r.Validate = Except.ok o) :
    (msgsOpt o).count statusNotDefinedMsg = (if r.Status = 0 then 1 else 0) ∧
    (∀ s, (msgsOpt o).count (dupRespMsg s) = 0) ∧
    ∀ m ∈ msgsOpt o, benignMsg m ∨ m = statusNotDefinedMsg := by
  rcases responseValidate_decomp r o h with ⟨hm, hdec, hben⟩
  rw [hdec]
  refine ⟨?_, ?_, ?_⟩
  · rw [List.count_append]
    have h1 : hm.count statusNotDefinedMsg = 0 :=
      count_eq_zero_of_all_ne fun m hmm => benign_ne_status (hben m hmm)
    by_cases hs : r.Status = 0 <;> simp [hs, h1]
  · intro s
    rw [List.count_append]
    have h1 : hm.count (dupRespMsg s) = 0 :=
      count_eq_zero_of_all_ne fun m hmm => benign_ne_dup (hben m hmm) s
    have h2 : (if r.Status = 0 then [statusNotDefinedMsg] else []).count (dupRespMsg s) = 0 := by
      by_cases hs : r.Status = 0 <;> simp [hs, List.count_cons, status_ne_dup s]
    omega
  · intro m hmm
    rcases List.mem_append.mp hmm with hin | hin
    · exact Or.inl (hben m hin)
    · by_cases hs : r.Status = 0
      · rw [if_pos hs] at hin
        simp at hin
        exact Or.inr hin
      · rw [if_neg hs] at hin
        cases hin

theorem respLoopSimple_decomp (rs : List ResponseDefinition) :
    ∀ verr v', respLoopSimple verr rs = Except.ok v' →
      ∃ g, v'.Errors = verr.Errors ++ g ∧
        g.count statusNotDefinedMsg = countStatus rs 0 ∧
        (∀ s, g.count (dupRespMsg s) = 0) ∧
        ∀ m ∈ g, benignMsg m ∨ m = statusNotDefinedMsg := by
  induction rs with
  | nil =>
    intro verr v' h
    simp only [respLoopSimple] at h
    rw [← Except.ok.inj h]
    exact ⟨[], by simp, by simp [countStatus], by simp, by simp⟩
  | cons r rest ih =>
    intro verr v' h
    simp only [respLoopSimple] at h
    rcases exbind_ok h with ⟨e, he, h⟩
    rcases ih _ _ h with ⟨g, hg, hc1, hc2, hcl⟩
    rcases responseValidate_counts r e he with ⟨rc1, rc2, rcl⟩
    refine ⟨msgsOpt e ++ g, ?_, ?_, ?_, ?_⟩
    · rw [hg, mergeOpt_errors, List.append_assoc]
    · rw [List.count_append, rc1, hc1, countStatus_cons]
    · intro s
      rw [List.count_append, rc2 s, hc2 s]
    · intro m hm
      rcases List.mem_append.mp hm with hin | hin
      · exact rcl m hin
      · exact hcl m hin

theorem innerDupLoop_decomp (rest : List ResponseDefinition) :
    ∀ r i verr j, (innerDupLoop r i verr j rest).Errors =
      verr.Errors ++ List.replicate (dupHits r.Status i j rest) (dupRespMsg r.Status) := by
  induction rest with
  | nil => intro r i verr j; simp [innerDupLoop, dupHits]
  | cons r2 rest ih =>
    intro r i verr j
    simp only [innerDupLoop, dupHits]
    by_cases hc : i ≠ j ∧ r.Status = r2.Status
    · rw [if_pos hc, if_pos hc, ih]
      rw [add_errors, List.append_assoc]
      congr 1
      rw [Nat.add_comm 1, List.replicate_succ]
      rfl
    · rw [if_neg hc, if_neg hc, ih]
      simp

theorem dupHits_out (s i : Nat) (l : List ResponseDefinition) :
    ∀ j, (∀ k, k < l.length → j + k ≠ i) → dupHits s i j l = countStatus l s := by
  induction l with
  | nil => intro j _; simp [dupHits, countStatus]
  | cons r2 rest ih =>
    intro j hj
    have hji : i ≠ j := by
      have := hj 0 (by simp)
      omega
    rw [dupHits, countStatus_cons, ih (j + 1) (fun k hk => by
      have := hj (k + 1) (by simpa using Nat.succ_lt_succ hk)
      omega)]
    by_cases hs : s = r2.Status
    · rw [if_pos ⟨hji, hs⟩, if_pos hs.symm]
    · rw [if_neg (by tauto), if_neg (fun hh => hs hh.symm)]

theorem dupHits_split (s i : Nat) (l1 : List ResponseDefinition) :
    ∀ l2 j, dupHits s i j (l1 ++ l2) = dupHits s i j l1 + dupHits s i (j + l1.length) l2 := by
  induction l1 with
  | nil => intro l2 j; simp [dupHits]
  | cons r2 rest ih =>
    intro l2 j
    have h1 : (r2 :: rest) ++ l2 = r2 :: (rest ++ l2) := rfl
    rw [h1, dupHits, dupHits, ih l2 (j + 1)]
    have h2 : j + 1 + rest.length = j + (r2 :: rest).length := by
      rw [List.length_cons]
      omega
    rw [h2]
    omega

theorem countStatus_append (l1 l2 : List ResponseDefinition) (s : Nat) :
    countStatus (l1 ++ l2) s = countStatus l1 s + countStatus l2 s := by
  simp [countStatus, List.filter_append]

theorem dupHits_at (s i : Nat) (pre : List ResponseDefinition) (r : ResponseDefinition)
    (post : List ResponseDefinition) (hi : i = pre.length) (hs : r.Status = s) :
    dupHits s i 0 (pre ++ r :: post) = countStatus (pre ++ r :: post) s - 1 := by
  rw [dupHits_split]
  have hpre : dupHits s i 0 pre = countStatus pre s :=
    dupHits_out s i pre 0 (fun k hk => by omega)
  have hfirst : dupHits s i (0 + pre.length) (r :: post) = countStatus post s := by
    rw [dupHits]
    have : ¬ (i ≠ 0 + pre.length ∧ s = r.Status) := by
      intro hcon
      exact hcon.1 (by omega)
    rw [if_neg this, dupHits_out s i post (0 + pre.length + 1) (fun k hk => by omega)]
    omega
  rw [hpre, hfirst, countStatus_append, countStatus_cons, hs, if_pos rfl]
  omega

theorem outerRespLoop_decomp (rem : List ResponseDefinition) :
    ∀ all pre i verr v', all = pre ++ rem → i = pre.length →
      outerRespLoop all i verr rem = Except.ok v' →
      ∃ g, v'.Errors = verr.Errors ++ g ∧
        (∀ s, g.count (dupRespMsg s) = countStatus rem s * (countStatus all s - 1)) ∧
        g.count statusNotDefinedMsg = countStatus rem 0 ∧
        ∀ m ∈ g, benignMsg m ∨ m = statusNotDefinedMsg ∨ ∃ s2, m = dupRespMsg s2 := by
  induction rem with
  | nil =>
    intro all pre i verr v' hall hi h
    simp only [outerRespLoop] at h
    rw [← Except.ok.inj h]
    exact ⟨[], by simp, by simp [countStatus], by simp [countStatus], by simp⟩
  | cons r rest ih =>
    intro all pre i verr v' hall hi h
    simp only [outerRespLoop] at h
    rcases exbind_ok h with ⟨e, he, h⟩
    rcases ih all (pre ++ [r]) (i + 1) _ v' (by rw [hall]; simp) (by simp [hi]) h with
      ⟨g, hg, hc1, hc2, hcl⟩
    rcases responseValidate_counts r e he with ⟨rc1, rc2, rcl⟩
    have hinner := innerDupLoop_decomp all r i verr 0
    refine ⟨List.replicate (dupHits r.Status i 0 all) (dupRespMsg r.Status) ++ (msgsOpt e ++ g),
      ?_, ?_, ?_, ?_⟩
    · rw [hg, mergeOpt_errors, hinner]
      simp [List.append_assoc]
    · intro s
      rw [List.count_append, List.count_append, hc1 s, rc2 s, count_replicate_msg,
        countStatus_cons]
      by_cases hrs : r.Status = s
      · rw [if_pos (by rw [hrs]), if_pos hrs]
        have : dupHits r.Status i 0 all = countStatus all s - 1 := by
          rw [hrs, hall]
          exact dupHits_at s i pre r rest hi hrs
        rw [this]
        ring
      · rw [if_neg (fun hh => hrs (dupMsg_inj hh).symm), if_neg hrs]
        ring
    · rw [List.count_append, List.count_append, hc2, rc1, countStatus_cons]
      rw [count_replicate_msg, if_neg (Ne.symm (status_ne_dup r.Status) |>.symm)]
      omega
    · intro m hm
      rcases List.mem_append.mp hm with hin | hin
      · right; right
        exact ⟨r.Status, List.eq_of_mem_replicate hin⟩
      · rcases List.mem_append.mp hin with hin | hin
        · rcases rcl m hin with hb | hb
          · exact Or.inl hb
          · exact Or.inr (Or.inl hb)
        · exact hcl m hin

theorem ite_add_append (c : Prop) [Decidable c] (verr : ValidationErrors)
    (d : DSLDefinition) (msg : String) :
    ∃ g1, (if c then verr.Add d msg else verr).Errors = verr.Errors ++ g1 ∧
      ∀ m ∈ g1, m = msg := by
  by_cases hc : c
  · exact ⟨[msg], by rw [if_pos hc, add_errors], by simp⟩
  · exact ⟨[], by rw [if_neg hc]; simp, by simp⟩

theorem paramsLoop_decomp (fields : AttrList) :
    ∀ a verr v', paramsLoop a verr fields = Except.ok v' →
      ∃ g, v'.Errors = verr.Errors ++ g ∧ ∀ m ∈ g, benignMsg m :=
  match fields with
  | .nil => by
    intro a verr v' h
    simp only [paramsLoop] at h
    rw [← Except.ok.inj h]
    exact ⟨[], by simp, by simp⟩
  | .cons n p rest => by
    intro a verr v' h
    cases p with
    | null =>
      simp only [paramsLoop] at h
      exact absurd h (by simp)
    | mk att =>
      simp only [paramsLoop] at h
      cases hty : att.type with
      | none =>
        simp only [hty] at h
        exact absurd h (by simp)
      | some t =>
        simp only [hty] at h
        rcases exbind_ok h with ⟨r, hr, h2⟩
        rcases paramsLoop_decomp rest a _ v' h2 with ⟨g, hg, hb⟩
        rw [mergeOpt_errors] at hg
        rcases ite_add_append (n = "") verr (DSLDefinition.act a) paramNoNameMsg with
          ⟨g1, hg1, hm1⟩
        rcases ite_add_append (t.kind = TypeKind.ObjectKind)
          (if n = "" then verr.Add (DSLDefinition.act a) paramNoNameMsg else verr)
          (DSLDefinition.act a) (paramObjectMsg n) with ⟨g2, hg2, hm2⟩
        refine ⟨g1 ++ g2 ++ (msgsOpt r ++ g), ?_, ?_⟩
        · rw [hg, hg2, hg1]
          simp [List.append_assoc]
        · intro m hm
          rcases List.mem_append.mp hm with hin | hin
          · rcases List.mem_append.mp hin with hin | hin
            · rw [hm1 m hin]; exact benign_paramNoName
            · rw [hm2 m hin]; exact benign_paramObject n
          · rcases List.mem_append.mp hin with hin | hin
            · exact attrValidate_benign att _ _ _ hr m hin
            · exact hb m hin
termination_by sizeOf fields

theorem validateParams_decomp (a : ActionDefinition) (o : Option ValidationErrors)
    (h : a.ValidateParams = Except.ok o) :
    (msgsOpt o).count statusNotDefinedMsg =
      (if a.Params.isSome then countStatus a.Responses 0 else 0) ∧
    (∀ s, (msgsOpt o).count (dupRespMsg s) = 0) ∧
    ∀ m ∈ msgsOpt o, benignMsg m ∨ m = statusNotDefinedMsg := by
  unfold ActionDefinition.ValidateParams at h
  cases hP : a.Params with
  | none =>
    rw [hP] at h
    rw [← Except.ok.inj h]
    simp [msgsOpt]
  | some pa =>
    rw [hP] at h
    rcases exbind_ok h with ⟨verr1, h1, h⟩
    rcases exbind_ok h with ⟨verr2, h2, h⟩
    simp only [pure, Except.pure, Except.ok.injEq] at h
    have hstart : ∀ m ∈ (match pa.type with
        | DTOpt.some (DataType.object fields) => ((ValidationErrors.empty, fields) :
            ValidationErrors × AttrList)
        | _ => (ValidationErrors.empty.Add (.act a) paramsNotObjectMsg, AttrList.nil)).1.Errors,
        benignMsg m := by
      intro m hm
      match htype : pa.type with
      | DTOpt.some (DataType.object fields) =>
        rw [htype] at hm
        simp [ValidationErrors.empty] at hm
      | DTOpt.none =>
        rw [htype] at hm
        simp only [ValidationErrors.Add, ValidationErrors.empty, List.nil_append] at hm
        simp at hm
        subst hm
        exact benign_paramsNotObject
      | DTOpt.some (DataType.primitive q) =>
        rw [htype] at hm
        simp only [ValidationErrors.Add, ValidationErrors.empty, List.nil_append] at hm
        simp at hm
        subst hm
        exact benign_paramsNotObject
      | DTOpt.some (DataType.array e) =>
        rw [htype] at hm
        simp only [ValidationErrors.Add, ValidationErrors.empty, List.nil_append] at hm
        simp at hm
        subst hm
        exact benign_paramsNotObject
      | DTOpt.some (DataType.userT u) =>
        rw [htype] at hm
        simp only [ValidationErrors.Add, ValidationErrors.empty, List.nil_append] at hm
        simp at hm
        subst hm
        exact benign_paramsNotObject
      | DTOpt.some (DataType.mediaT mm) =>
        rw [htype] at hm
        simp only [ValidationErrors.Add, ValidationErrors.empty, List.nil_append] at hm
        simp at hm
        subst hm
        exact benign_paramsNotObject
    rcases paramsLoop_decomp _ a _ verr1 h1 with ⟨g1, hg1, hb1⟩
    rcases respLoopSimple_decomp a.Responses verr1 verr2 h2 with ⟨g2, hg2, hc1, hc2, hcl⟩
    rw [← h, msgsOpt_asError_eq, hg2, hg1]
    have hben1 : ∀ m ∈ g1, benignMsg m := hb1
    refine ⟨?_, ?_, ?_⟩
    · rw [List.count_append, List.count_append]
      have c0 : (List.count statusNotDefinedMsg (match pa.type with
          | DTOpt.some (DataType.object fields) => ((ValidationErrors.empty, fields) :
              ValidationErrors × AttrList)
          | _ => (ValidationErrors.empty.Add (.act a) paramsNotObjectMsg, AttrList.nil)).1.Errors) = 0 :=
        count_eq_zero_of_all_ne fun m hmm => benign_ne_status (hstart m hmm)
      have c1 : g1.count statusNotDefinedMsg = 0 :=
        count_eq_zero_of_all_ne fun m hmm => benign_ne_status (hben1 m hmm)
      rw [c0, c1, hc1]
      simp
    · intro s
      rw [List.count_append, List.count_append]
      have c0 : (List.count (dupRespMsg s) (match pa.type with
          | DTOpt.some (DataType.object fields) => ((ValidationErrors.empty, fields) :
              ValidationErrors × AttrList)
          | _ => (ValidationErrors.empty.Add (.act a) paramsNotObjectMsg, AttrList.nil)).1.Errors) = 0 :=
        count_eq_zero_of_all_ne fun m hmm => benign_ne_dup (hstart m hmm) s
      have c1 : g1.count (dupRespMsg s) = 0 :=
        count_eq_zero_of_all_ne fun m hmm => benign_ne_dup (hben1 m hmm) s
      rw [c0, c1, hc2 s]
    · intro m hm
      rcases List.mem_append.mp hm with hin | hin
      · rcases List.mem_append.mp hin with hin | hin
        · exact Or.inl (hstart m hin)
        · exact Or.inl (hben1 m hin)
      · exact hcl m hin

theorem ite_add_append_else (c : Prop) [Decidable c] (verr : ValidationErrors)
    (d : DSLDefinition) (msg : String) :
    ∃ g1, (if c then verr else verr.Add d msg).Errors = verr.Errors ++ g1 ∧
      ∀ m ∈ g1, m = msg := by
  by_cases hc : c
  · exact ⟨[], by rw [if_pos hc]; simp, by simp⟩
  · exact ⟨[msg], by rw [if_neg hc, add_errors], by simp⟩

theorem actionValidate_counts (a : ActionDefinition) (o : Option ValidationErrors)
    (h : a.Validate = Except.ok o) :
    (∀ s, (msgsOpt o).count (dupRespMsg s) =
      countStatus a.Responses s * (countStatus a.Responses s - 1)) ∧
    (msgsOpt o).count statusNotDefinedMsg =
      (if a.Params.isSome then 2 else 1) * countStatus a.Responses 0 := by
  unfold ActionDefinition.Validate at h
  rcases exbind_ok h with ⟨v1, hout, h⟩
  rcases exbind_ok h with ⟨vp, hvp, h⟩
  rcases ite_add_append (a.Name = "") ValidationErrors.empty (DSLDefinition.act a)
    actionNameEmptyMsg with ⟨g01, hg01, hm01⟩
  rcases ite_add_append (a.Routes.length = 0)
    (if a.Name = "" then ValidationErrors.empty.Add (DSLDefinition.act a) actionNameEmptyMsg
      else ValidationErrors.empty) (DSLDefinition.act a) noRouteMsg with ⟨g02, hg02, hm02⟩
  rcases outerRespLoop_decomp a.Responses a.Responses [] 0 _ v1 (by simp) rfl hout with
    ⟨g1, hgout, hcd, hcs, hcl⟩
  rcases validateParams_decomp a vp hvp with ⟨pc1, pc2, pcl⟩
  have hv1 : v1.Errors = (g01 ++ g02) ++ g1 := by
    rw [hgout, hg02, hg01]
    simp [ValidationErrors.empty]
  have assemble : ∀ (extra : List String), (∀ m ∈ extra, benignMsg m) →
      ∀ (vf : ValidationErrors), vf.Errors = v1.Errors ++ msgsOpt vp ++ extra →
      (∀ s, vf.Errors.count (dupRespMsg s) =
        countStatus a.Responses s * (countStatus a.Responses s - 1)) ∧
      vf.Errors.count statusNotDefinedMsg =
        (if a.Params.isSome then 2 else 1) * countStatus a.Responses 0 := by
    intro extra hextra vf hvf
    have hz1 : ∀ s, (g01 ++ g02).count (dupRespMsg s) = 0 := by
      intro s
      refine count_eq_zero_of_all_ne fun m hmm => ?_
      rcases List.mem_append.mp hmm with hin | hin
      · rw [hm01 m hin]; exact benign_ne_dup benign_actionNameEmpty s
      · rw [hm02 m hin]; exact benign_ne_dup benign_noRoute s
    have hz2 : (g01 ++ g02).count statusNotDefinedMsg = 0 := by
      refine count_eq_zero_of_all_ne fun m hmm => ?_
      rcases List.mem_append.mp hmm with hin | hin
      · rw [hm01 m hin]; exact benign_ne_status benign_actionNameEmpty
      · rw [hm02 m hin]; exact benign_ne_status benign_noRoute
    have hz3 : ∀ s, extra.count (dupRespMsg s) = 0 := fun s =>
      count_eq_zero_of_all_ne fun m hmm => benign_ne_dup (hextra m hmm) s
    have hz4 : extra.count statusNotDefinedMsg = 0 :=
      count_eq_zero_of_all_ne fun m hmm => benign_ne_status (hextra m hmm)
    constructor
    · intro s
      rw [hvf, hv1, List.count_append, List.count_append, List.count_append,
        hz1 s, hz3 s, hcd s, pc2 s]
      omega
    · rw [hvf, hv1, List.count_append, List.count_append, List.count_append,
        hz2, hz4, hcs, pc1]
      by_cases hp : a.Params.isSome
      · simp [hp]
        omega
      · simp [hp]
  cases hP : a.Payload with
  | none =>
    rw [hP] at h
    rcases exbind_ok h with ⟨vv, hvv, h⟩
    simp only [pure, Except.pure, Except.ok.injEq] at hvv h
    subst hvv
    rcases ite_add_append_else a.parentSet (v1.MergeOpt vp) (DSLDefinition.act a)
      missingParentResourceMsg with ⟨gpar, hgpar, hmpar⟩
    rw [← h, msgsOpt_asError_eq]
    exact assemble gpar
      (fun m hmm => by rw [hmpar m hmm]; exact benign_missingParent) _
      (by rw [hgpar, mergeOpt_errors])
  | some pl =>
    rw [hP] at h
    rcases exbind_ok h with ⟨e, he, h⟩
    rcases exbind_ok h with ⟨vv, hvv, h⟩
    simp only [pure, Except.pure, Except.ok.injEq] at hvv h
    subst hvv
    rcases ite_add_append_else a.parentSet ((v1.MergeOpt vp).MergeOpt e) (DSLDefinition.act a)
      missingParentResourceMsg with ⟨gpar, hgpar, hmpar⟩
    rw [← h, msgsOpt_asError_eq]
    refine assemble (msgsOpt e ++ gpar) ?_ _ ?_
    · intro m hmm
      rcases List.mem_append.mp hmm with hin | hin
      · exact attrValidate_benign pl _ _ _ he m hin
      · rw [hmpar m hin]; exact benign_missingParent
    · rw [hgpar, mergeOpt_errors, mergeOpt_errors]
      simp [List.append_assoc]

/-- C7. For every action and status, duplicate-status failures are reported
once per ordered pair of distinct response indices sharing that status;
with exactly two responses carrying the status, exactly two entries are
reported. -/
theorem c7_duplicate_status_pairwise (a : ActionDefinition) (s : Nat)
    (hok : isOkV a.Validate = true) (h2 : countStatus a.Responses s = 2) :
    (msgsE a.Validate).count (dupRespMsg s) = 2 := by
  cases hv : a.Validate with
  | error e => rw [hv] at hok; cases hok
  | ok o =>
    have := (actionValidate_counts a o hv).1 s
    rw [h2] at this
    simp only [msgsE, hv]
    rw [this]

/-- C7 witness: the concrete action with two status-200 responses. -/
theorem c7_duplicate_status_pairwise_witness :
    (msgsE c7act.Validate).count (dupRespMsg 200) = 2 :=
  c7_duplicate_status_pairwise c7act 200 (by decide) (by decide)

/-- C10. For every action whose Params field is non-nil, the responses are
validated twice (once directly, once inside ValidateParams), so the
undefined-status failure is reported twice per zero-status response. -/
theorem c10_responses_validated_twice (a : ActionDefinition)
    (hp : a.Params.isSome = true) (hok : isOkV a.Validate = true) :
    (msgsE a.Validate).count statusNotDefinedMsg = 2 * countStatus a.Responses 0 := by
  cases hv : a.Validate with
  | error e => rw [hv] at hok; cases hok
  | ok o =>
    have := (actionValidate_counts a o hv).2
    rw [hp] at this
    simp only [msgsE, hv]
    simpa using this

/-- C10 witness: the concrete action with an empty params object and one
zero-status response. -/
theorem c10_responses_validated_twice_witness :
    (msgsE c10act.Validate).count statusNotDefinedMsg = 2 * countStatus c10act.Responses 0 :=
  c10_responses_validated_twice c10act (by decide) (by decide)

/- ===================================================================
   C8: adequacy of the fuel-indexed walker.  Each lemma shows that the
   fuel-indexed variant agrees with the total (structurally recursive)
   walker as soon as the fuel exceeds the size of the entity being
   walked; the final theorem instantiates the fuel at the size of the
   API definition itself, so the walk consumes a finite, size-bounded
   amount of recursion on every acyclic specification graph.
   =================================================================== -/

theorem bindOE_some {α β : Type} (x : Except String α)
    (f : α → Option (Except String β)) (g : α → Except String β)
    (hfg : ∀ v, f v = Option.some (g v)) :
    bindOE (Option.some x) f = Option.some (x >>= g) := by
  cases x with
  | error s => rfl
  | ok v => rw [bindOE, hfg v]; rfl

theorem bindOE_some_of {α β : Type} (x : Except String α)
    (f : α → Option (Except String β)) (g : α → Except String β)
    (hfg : ∀ v, x = Except.ok v → f v = Option.some (g v)) :
    bindOE (Option.some x) f = Option.some (x >>= g) := by
  cases x with
  | error s => rfl
  | ok v => rw [bindOE, hfg v rfl]; rfl

set_option maxHeartbeats 1000000 in
mutual
theorem attrValidateFuel_ok (a : AttributeDefinition) :
    ∀ n ctx parent, sizeOf a < n →
      attrValidateFuel n a ctx parent = Option.some (a.Validate ctx parent) :=
  match a with
  | .mk ty validations vw => by
    intro n ctx parent hn
    cases n with
    | zero => exact absurd hn (Nat.not_lt_zero _)
    | succ n =>
      cases ty with
      | none => rfl
      | some t =>
        cases t with
        | object fields =>
          have hf : sizeOf fields < n := by simp at hn; omega
          simp only [attrValidateFuel, AttributeDefinition.Validate]
          rw [attrFieldsFuel_ok fields n _ _ hf]
          exact bindOE_some _ _ _ (fun v => rfl)
        | primitive p =>
          have hf : sizeOf (DataType.primitive p) < n := by simp at hn ⊢; omega
          simp only [attrValidateFuel, AttributeDefinition.Validate]
          rw [arrayElemFuel_ok (DataType.primitive p) n _ _ _ hf]
          exact bindOE_some _ _ _ (fun v => rfl)
        | array e =>
          have hf : sizeOf (DataType.array e) < n := by simp at hn ⊢; omega
          simp only [attrValidateFuel, AttributeDefinition.Validate]
          rw [arrayElemFuel_ok (DataType.array e) n _ _ _ hf]
          exact bindOE_some _ _ _ (fun v => rfl)
        | userT u =>
          have hf : sizeOf (DataType.userT u) < n := by simp at hn ⊢; omega
          simp only [attrValidateFuel, AttributeDefinition.Validate]
          rw [arrayElemFuel_ok (DataType.userT u) n _ _ _ hf]
          exact bindOE_some _ _ _ (fun v => rfl)
        | mediaT mm =>
          have hf : sizeOf (DataType.mediaT mm) < n := by simp at hn ⊢; omega
          simp only [attrValidateFuel, AttributeDefinition.Validate]
          rw [arrayElemFuel_ok (DataType.mediaT mm) n _ _ _ hf]
          exact bindOE_some _ _ _ (fun v => rfl)
termination_by sizeOf a

theorem attrFieldsFuel_ok (fields : AttrList) :
    ∀ n parent verr, sizeOf fields < n →
      attrFieldsValidateFuel n parent fields verr =
        Option.some (attrFieldsValidate parent fields verr) :=
  match fields with
  | .nil => by
    intro n parent verr hn
    cases n with
    | zero => exact absurd hn (Nat.not_lt_zero _)
    | succ n => rfl
  | .cons nm att rest => by
    intro n parent verr hn
    cases n with
    | zero => exact absurd hn (Nat.not_lt_zero _)
    | succ n =>
      cases att with
      | null => rfl
      | mk a =>
        have ha : sizeOf a < n := by simp at hn; omega
        have hr : sizeOf rest < n := by simp at hn; omega
        simp only [attrFieldsValidateFuel, attrFieldsValidate]
        rw [attrValidateFuel_ok a n ("field " ++ nm) parent ha]
        exact bindOE_some _ _ _
          (fun v => attrFieldsFuel_ok rest n parent (verr.MergeOpt v) hr)
termination_by sizeOf fields

theorem arrayElemFuel_ok (t : DataType) :
    ∀ n ctx parent verr, sizeOf t < n →
      arrayElemValidateFuel n ctx parent t verr =
        Option.some (arrayElemValidate ctx parent t verr) :=
  match t with
  | .primitive p => by
    intro n ctx parent verr hn
    cases n with
    | zero => exact absurd hn (Nat.not_lt_zero _)
    | succ n => rfl
  | .object o => by
    intro n ctx parent verr hn
    cases n with
    | zero => exact absurd hn (Nat.not_lt_zero _)
    | succ n => rfl
  | .array .null => by
    intro n ctx parent verr hn
    cases n with
    | zero => exact absurd hn (Nat.not_lt_zero _)
    | succ n => rfl
  | .array (.mk e) => by
    intro n ctx parent verr hn
    cases n with
    | zero => exact absurd hn (Nat.not_lt_zero _)
    | succ n =>
      have he : sizeOf e < n := by simp at hn; omega
      simp only [arrayElemValidateFuel, arrayElemValidate]
      rw [attrValidateFuel_ok e n ctx parent he]
      exact bindOE_some _ _ _ (fun v => rfl)
  | .userT (.mk (.mk (.some t2) vls vw) tn) => by
    intro n ctx parent verr hn
    cases n with
    | zero => exact absurd hn (Nat.not_lt_zero _)
    | succ n =>
      have h2 : sizeOf t2 < n := by simp at hn; omega
      simp only [arrayElemValidateFuel, arrayElemValidate]
      exact arrayElemFuel_ok t2 n ctx parent verr h2
  | .userT (.mk (.mk .none vls vw) tn) => by
    intro n ctx parent verr hn
    cases n with
    | zero => exact absurd hn (Nat.not_lt_zero _)
    | succ n => rfl
  | .mediaT (.mk (.mk (.mk (.some t2) vls vw) tn) id vs ls) => by
    intro n ctx parent verr hn
    cases n with
    | zero => exact absurd hn (Nat.not_lt_zero _)
    | succ n =>
      have h2 : sizeOf t2 < n := by simp at hn; omega
      simp only [arrayElemValidateFuel, arrayElemValidate]
      exact arrayElemFuel_ok t2 n ctx parent verr h2
  | .mediaT (.mk (.mk (.mk .none vls vw) tn) id vs ls) => by
    intro n ctx parent verr hn
    cases n with
    | zero => exact absurd hn (Nat.not_lt_zero _)
    | succ n => rfl
termination_by sizeOf t
end

theorem mtTypeSectionFuel_ok (t : DataType) :
    ∀ n m verr, sizeOf t < n →
      mtTypeSectionFuel n m verr t = Option.some (mtTypeSection m verr t) :=
  match t with
  | .primitive p => by
    intro n m verr hn
    cases n with
    | zero => exact absurd hn (Nat.not_lt_zero _)
    | succ n => rfl
  | .object o => by
    intro n m verr hn
    cases n with
    | zero => exact absurd hn (Nat.not_lt_zero _)
    | succ n => rfl
  | .array .null => by
    intro n m verr hn
    cases n with
    | zero => exact absurd hn (Nat.not_lt_zero _)
    | succ n => rfl
  | .array (.mk (.mk ety evals evw)) => by
    intro n m verr hn
    cases n with
    | zero => exact absurd hn (Nat.not_lt_zero _)
    | succ n =>
      have he : sizeOf (AttributeDefinition.mk ety evals evw) < n := by
        simp at hn ⊢; omega
      simp only [mtTypeSectionFuel, mtTypeSection]
      rw [attrValidateFuel_ok _ n "array element" (.mt m) he]
      refine bindOE_some _ _ _ (fun v => ?_)
      cases v with
      | some errs => rfl
      | none =>
        cases ety with
        | none => rfl
        | some t2 => rfl
  | .userT (.mk (.mk (.some t2) vls vw) tn) => by
    intro n m verr hn
    cases n with
    | zero => exact absurd hn (Nat.not_lt_zero _)
    | succ n =>
      have h2 : sizeOf t2 < n := by simp at hn; omega
      simp only [mtTypeSectionFuel, mtTypeSection]
      exact mtTypeSectionFuel_ok t2 n m verr h2
  | .userT (.mk (.mk .none vls vw) tn) => by
    intro n m verr hn
    cases n with
    | zero => exact absurd hn (Nat.not_lt_zero _)
    | succ n => rfl
  | .mediaT (.mk (.mk (.mk (.some t2) vls vw) tn) id vs ls) => by
    intro n m verr hn
    cases n with
    | zero => exact absurd hn (Nat.not_lt_zero _)
    | succ n =>
      have h2 : sizeOf t2 < n := by simp at hn; omega
      simp only [mtTypeSectionFuel, mtTypeSection]
      exact mtTypeSectionFuel_ok t2 n m verr h2
  | .mediaT (.mk (.mk (.mk .none vls vw) tn) id vs ls) => by
    intro n m verr hn
    cases n with
    | zero => exact absurd hn (Nat.not_lt_zero _)
    | succ n => rfl
termination_by sizeOf t

theorem dtToObject_sizeOf (t : DataType) :
    ∀ o, dtToObject t = Option.some o → sizeOf o < sizeOf t :=
  match t with
  | .primitive p => by intro o h; simp [dtToObject] at h
  | .array e => by intro o h; simp [dtToObject] at h
  | .object fields => by
    intro o h
    simp only [dtToObject, Option.some.injEq] at h
    subst h
    simp
  | .userT (.mk (.mk (.some t2) vls vw) tn) => by
    intro o h
    simp only [dtToObject] at h
    have h2 := dtToObject_sizeOf t2 o h
    simp
    omega
  | .userT (.mk (.mk .none vls vw) tn) => by intro o h; simp [dtToObject] at h
  | .mediaT (.mk (.mk (.mk (.some t2) vls vw) tn) id vs ls) => by
    intro o h
    simp only [dtToObject] at h
    have h2 := dtToObject_sizeOf t2 o h
    simp
    omega
  | .mediaT (.mk (.mk (.mk .none vls vw) tn) id vs ls) => by
    intro o h; simp [dtToObject] at h
termination_by sizeOf t

theorem mtTypeSection_obj_sizeOf (t : DataType) :
    ∀ m verr v2 o, mtTypeSection m verr t = Except.ok (v2, Option.some o) →
      sizeOf o < sizeOf t :=
  match t with
  | .primitive p => by
    intro m verr v2 o h
    simp [mtTypeSection] at h
  | .object fields => by
    intro m verr v2 o h
    simp only [mtTypeSection, Except.ok.injEq, Prod.mk.injEq, Option.some.injEq] at h
    rw [← h.2]
    simp
  | .array .null => by
    intro m verr v2 o h
    simp [mtTypeSection] at h
  | .array (.mk (.mk ety evals evw)) => by
    intro m verr v2 o h
    simp only [mtTypeSection] at h
    rcases exbind_ok h with ⟨r, hr, h2⟩
    cases r with
    | some errs => simp at h2
    | none =>
      cases ety with
      | none => simp [AttributeDefinition.type] at h2
      | some t2 =>
        simp only [AttributeDefinition.type, Except.ok.injEq, Prod.mk.injEq] at h2
        have h3 := dtToObject_sizeOf t2 o h2.2
        simp
        omega
  | .userT (.mk (.mk (.some t2) vls vw) tn) => by
    intro m verr v2 o h
    simp only [mtTypeSection] at h
    have h2 := mtTypeSection_obj_sizeOf t2 m verr v2 o h
    simp
    omega
  | .userT (.mk (.mk .none vls vw) tn) => by
    intro m verr v2 o h
    simp [mtTypeSection] at h
  | .mediaT (.mk (.mk (.mk (.some t2) vls vw) tn) id vs ls) => by
    intro m verr v2 o h
    simp only [mtTypeSection] at h
    have h2 := mtTypeSection_obj_sizeOf t2 m verr v2 o h
    simp
    omega
  | .mediaT (.mk (.mk (.mk .none vls vw) tn) id vs ls) => by
    intro m verr v2 o h
    simp [mtTypeSection] at h
termination_by sizeOf t

theorem bindOE_congr {α β : Type} {x : Option (Except String α)} {y : Except String α}
    (hx : x = Option.some y)
    (f : α → Option (Except String β)) (g : α → Except String β)
    (hfg : ∀ v, y = Except.ok v → f v = Option.some (g v)) :
    bindOE x f = Option.some (y >>= g) := by
  subst hx
  exact bindOE_some_of y f g hfg

theorem userTypeValidateFuel_ok (u : UserTypeDefinition) (n : Nat) (ctx : String)
    (parent : DSLDefinition) (hn : sizeOf u < n) :
    userTypeValidateFuel n u ctx parent = Option.some (u.Validate ctx parent) := by
  obtain ⟨attr, tn⟩ := u
  have ha : sizeOf attr < n := by simp at hn; omega
  simp only [userTypeValidateFuel, UserTypeDefinition.Validate]
  refine bindOE_congr (attrValidateFuel_ok attr n ctx parent ha) _ _ (fun v hv => ?_)
  rfl

theorem responseValidateFuel_ok (r : ResponseDefinition) (n : Nat)
    (hn : sizeOf r < n) :
    responseValidateFuel n r = Option.some r.Validate := by
  obtain ⟨nm, st, hd⟩ := r
  cases hd with
  | none => rfl
  | some h =>
    have hh : sizeOf h < n := by simp at hn; omega
    simp only [responseValidateFuel, ResponseDefinition.Validate]
    rw [attrValidateFuel_ok h n "response headers"
      (DSLDefinition.resp ⟨nm, st, Option.some h⟩) hh]
    cases h.Validate "response headers" (DSLDefinition.resp ⟨nm, st, Option.some h⟩) with
    | error s => rfl
    | ok v => rfl

theorem paramsLoopFuel_ok (fields : AttrList) :
    ∀ n a verr, sizeOf fields < n →
      paramsLoopFuel n a verr fields = Option.some (paramsLoop a verr fields) :=
  match fields with
  | .nil => by intro n a verr hn; rfl
  | .cons nm p rest => by
    intro n a verr hn
    cases p with
    | null => rfl
    | mk att =>
      obtain ⟨ty, vals, vw⟩ := att
      cases ty with
      | none => rfl
      | some t =>
        have ha : sizeOf (AttributeDefinition.mk (DTOpt.some t) vals vw) < n := by
          simp at hn ⊢; omega
        have hr : sizeOf rest < n := by simp at hn; omega
        simp only [paramsLoopFuel, paramsLoop]
        refine bindOE_congr (attrValidateFuel_ok _ n _ _ ha) _ _ (fun v hv => ?_)
        exact paramsLoopFuel_ok rest n a _ hr

theorem respLoopSimpleFuel_ok (l : List ResponseDefinition) :
    ∀ n verr, sizeOf l < n →
      respLoopSimpleFuel n verr l = Option.some (respLoopSimple verr l) :=
  match l with
  | [] => by intro n verr hn; rfl
  | r :: rest => by
    intro n verr hn
    have h1 : sizeOf r < n := by simp at hn; omega
    have h2 : sizeOf rest < n := by simp at hn; omega
    simp only [respLoopSimpleFuel, respLoopSimple]
    refine bindOE_congr (responseValidateFuel_ok r n h1) _ _ (fun v hv => ?_)
    exact respLoopSimpleFuel_ok rest n _ h2

theorem validateParamsFuel_ok (a : ActionDefinition) :
    ∀ n, sizeOf a < n → validateParamsFuel n a = Option.some a.ValidateParams := by
  obtain ⟨anm, routes, params, payload, resps, ps⟩ := a
  intro n hn
  have hresp : sizeOf resps < n := by simp at hn; omega
  have hnil : sizeOf AttrList.nil < n := by simp at hn ⊢; omega
  cases params with
  | none => rfl
  | some pa =>
    obtain ⟨ty, vals, vw⟩ := pa
    cases ty with
    | none =>
      simp only [validateParamsFuel, ActionDefinition.ValidateParams]
      refine bindOE_congr (paramsLoopFuel_ok AttrList.nil n _ _ hnil) _ _ (fun v hv => ?_)
      refine bindOE_congr (respLoopSimpleFuel_ok resps n _ hresp) _ _ (fun w hw => ?_)
      rfl
    | some t =>
      cases t with
      | object fields =>
        have hf : sizeOf fields < n := by simp at hn; omega
        simp only [validateParamsFuel, ActionDefinition.ValidateParams]
        refine bindOE_congr (paramsLoopFuel_ok fields n _ _ hf) _ _ (fun v hv => ?_)
        refine bindOE_congr (respLoopSimpleFuel_ok resps n _ hresp) _ _ (fun w hw => ?_)
        rfl
      | primitive p =>
        simp only [validateParamsFuel, ActionDefinition.ValidateParams]
        refine bindOE_congr (paramsLoopFuel_ok AttrList.nil n _ _ hnil) _ _ (fun v hv => ?_)
        refine bindOE_congr (respLoopSimpleFuel_ok resps n _ hresp) _ _ (fun w hw => ?_)
        rfl
      | array e =>
        simp only [validateParamsFuel, ActionDefinition.ValidateParams]
        refine bindOE_congr (paramsLoopFuel_ok AttrList.nil n _ _ hnil) _ _ (fun v hv => ?_)
        refine bindOE_congr (respLoopSimpleFuel_ok resps n _ hresp) _ _ (fun w hw => ?_)
        rfl
      | userT u =>
        simp only [validateParamsFuel, ActionDefinition.ValidateParams]
        refine bindOE_congr (paramsLoopFuel_ok AttrList.nil n _ _ hnil) _ _ (fun v hv => ?_)
        refine bindOE_congr (respLoopSimpleFuel_ok resps n _ hresp) _ _ (fun w hw => ?_)
        rfl
      | mediaT mm =>
        simp only [validateParamsFuel, ActionDefinition.ValidateParams]
        refine bindOE_congr (paramsLoopFuel_ok AttrList.nil n _ _ hnil) _ _ (fun v hv => ?_)
        refine bindOE_congr (respLoopSimpleFuel_ok resps n _ hresp) _ _ (fun w hw => ?_)
        rfl

theorem outerRespLoopFuel_ok (l : List ResponseDefinition) :
    ∀ n all i verr, sizeOf l < n →
      outerRespLoopFuel n all i verr l = Option.some (outerRespLoop all i verr l) :=
  match l with
  | [] => by intro n all i verr hn; rfl
  | r :: rest => by
    intro n all i verr hn
    have h1 : sizeOf r < n := by simp at hn; omega
    have h2 : sizeOf rest < n := by simp at hn; omega
    simp only [outerRespLoopFuel, outerRespLoop]
    refine bindOE_congr (responseValidateFuel_ok r n h1) _ _ (fun v hv => ?_)
    exact outerRespLoopFuel_ok rest n all (i + 1) _ h2

theorem actionValidateFuel_ok (a : ActionDefinition) (n : Nat) (hn : sizeOf a < n) :
    actionValidateFuel n a = Option.some a.Validate := by
  obtain ⟨anm, routes, params, payload, resps, ps⟩ := a
  have hresp : sizeOf resps < n := by simp at hn; omega
  cases payload with
  | none =>
    simp only [actionValidateFuel, ActionDefinition.Validate]
    refine bindOE_congr (outerRespLoopFuel_ok resps n resps 0 _ hresp) _ _ (fun v hv => ?_)
    refine bindOE_congr (validateParamsFuel_ok _ n hn) _ _ (fun vp hvp => ?_)
    rfl
  | some p =>
    have hp : sizeOf p < n := by simp at hn; omega
    simp only [actionValidateFuel, ActionDefinition.Validate]
    refine bindOE_congr (outerRespLoopFuel_ok resps n resps 0 _ hresp) _ _ (fun v hv => ?_)
    refine bindOE_congr (validateParamsFuel_ok _ n hn) _ _ (fun vp hvp => ?_)
    rw [attrValidateFuel_ok p n "action payload"
      (DSLDefinition.act ⟨anm, routes, params, Option.some p, resps, ps⟩) hp]
    cases p.Validate "action payload"
        (DSLDefinition.act ⟨anm, routes, params, Option.some p, resps, ps⟩) with
    | error s => rfl
    | ok e => rfl

theorem actionsLoopFuel_ok (l : List ActionDefinition) :
    ∀ n canonical found verr, sizeOf l < n →
      actionsLoopFuel n canonical found verr l =
        Option.some (actionsLoop canonical found verr l) :=
  match l with
  | [] => by intro n c f verr hn; rfl
  | a :: rest => by
    intro n c f verr hn
    have h1 : sizeOf a < n := by simp at hn; omega
    have h2 : sizeOf rest < n := by simp at hn; omega
    simp only [actionsLoopFuel, actionsLoop]
    refine bindOE_congr (actionValidateFuel_ok a n h1) _ _ (fun v hv => ?_)
    exact actionsLoopFuel_ok rest n c _ _ h2

theorem resourceValidateFuel_ok (r : ResourceDefinition) (reg : List String) (n : Nat)
    (hn : sizeOf r < n) :
    resourceValidateFuel n r reg = Option.some (r.Validate reg) := by
  obtain ⟨rnm, canon, bpath, bparams, pnm, acts, resps, params⟩ := r
  have hacts : sizeOf acts < n := by simp at hn; omega
  have hresps : sizeOf resps < n := by simp at hn; omega
  cases params with
  | none =>
    simp only [resourceValidateFuel, ResourceDefinition.Validate]
    refine bindOE_congr (actionsLoopFuel_ok acts n canon false _ hacts) _ _ (fun p hp => ?_)
    obtain ⟨found, verr⟩ := p
    refine bindOE_congr (respLoopSimpleFuel_ok resps n _ hresps) _ _ (fun v hv => ?_)
    rfl
  | some pp =>
    have hpp : sizeOf pp < n := by simp at hn; omega
    simp only [resourceValidateFuel, ResourceDefinition.Validate]
    refine bindOE_congr (actionsLoopFuel_ok acts n canon false _ hacts) _ _ (fun p hp => ?_)
    obtain ⟨found, verr⟩ := p
    refine bindOE_congr (respLoopSimpleFuel_ok resps n _ hresps) _ _ (fun v hv => ?_)
    rw [attrValidateFuel_ok pp n "resource parameters"
      (DSLDefinition.res ⟨rnm, canon, bpath, bparams, pnm, acts, resps, Option.some pp⟩) hpp]
    cases pp.Validate "resource parameters"
        (DSLDefinition.res ⟨rnm, canon, bpath, bparams, pnm, acts, resps, Option.some pp⟩) with
    | error s => rfl
    | ok e => rfl

theorem resourcesLoopFuel_ok (l : List ResourceDefinition) :
    ∀ n reg verr, sizeOf l < n →
      resourcesLoopFuel n reg verr l = Option.some (resourcesLoop reg verr l) :=
  match l with
  | [] => by intro n reg verr hn; rfl
  | r :: rest => by
    intro n reg verr hn
    have h1 : sizeOf r < n := by simp at hn; omega
    have h2 : sizeOf rest < n := by simp at hn; omega
    simp only [resourcesLoopFuel, resourcesLoop]
    refine bindOE_congr (resourceValidateFuel_ok r reg n h1) _ _ (fun v hv => ?_)
    exact resourcesLoopFuel_ok rest n reg _ h2

theorem viewValidateFuel_ok (v : ViewDefinition) (n : Nat) (hn : sizeOf v < n) :
    viewValidateFuel n v = Option.some v.Validate := by
  obtain ⟨pset, attr, nm⟩ := v
  have ha : sizeOf attr < n := by simp at hn; omega
  simp only [viewValidateFuel, ViewDefinition.Validate]
  refine bindOE_congr (attrValidateFuel_ok attr n "" _ ha) _ _ (fun e he => ?_)
  rfl

theorem viewsLoopFuel_ok (vl : ViewList) :
    ∀ n verr, sizeOf vl < n →
      viewsLoopFuel n verr vl = Option.some (viewsLoop verr vl) :=
  match vl with
  | .nil => by intro n verr hn; rfl
  | .cons nm v rest => by
    intro n verr hn
    have h1 : sizeOf v < n := by simp at hn; omega
    have h2 : sizeOf rest < n := by simp at hn; omega
    simp only [viewsLoopFuel, viewsLoop]
    refine bindOE_congr (viewValidateFuel_ok v n h1) _ _ (fun e he => ?_)
    exact viewsLoopFuel_ok rest n _ h2

theorem bindOE_ok_red {α β : Type} (v : α) (f : α → Option (Except String β)) :
    bindOE (Option.some (Except.ok v)) f = f v := rfl

theorem bindOE_err_red {α β : Type} (s : String) (f : α → Option (Except String β)) :
    bindOE (Option.some (Except.error s)) f = Option.some (Except.error s) := rfl

theorem bindOE_okOE_red {α β : Type} (v : α) (f : α → Option (Except String β)) :
    bindOE (okOE v) f = f v := rfl

theorem exbind_ok_red {α β : Type} (v : α) (f : α → Except String β) :
    Except.ok v >>= f = f v := rfl

theorem exbind_err_red {α β : Type} (s : String) (f : α → Except String β) :
    (Except.error s : Except String α) >>= f = Except.error s := rfl

theorem expure_bind_red {α β : Type} (v : α) (f : α → Except String β) :
    (pure v : Except String α) >>= f = f v := rfl

theorem mtAttrsLoopFuel_ok (fields : AttrList) :
    ∀ n m verr, sizeOf fields < n →
      mtAttrsLoopFuel n m verr fields = Option.some (mtAttrsLoop m verr fields) :=
  match fields with
  | .nil => by intro n m verr hn; rfl
  | .cons nm .null rest => by intro n m verr hn; rfl
  | .cons nm (.mk (.mk ty vals vw)) rest => by
    intro n m verr hn
    have ha : sizeOf (AttributeDefinition.mk ty vals vw) < n := by simp at hn ⊢; omega
    have hr : sizeOf rest < n := by simp at hn; omega
    by_cases hv : vw = ""
    · subst hv
      simp only [mtAttrsLoopFuel, mtAttrsLoop, AttributeDefinition.view,
        AttributeDefinition.type]
      refine bindOE_congr (attrValidateFuel_ok _ n _ _ ha) _ _ (fun e he => ?_)
      rw [if_neg (fun hc => hc rfl), if_neg (fun hc => hc rfl)]
      exact mtAttrsLoopFuel_ok rest n m _ hr
    · cases ty with
      | none =>
        simp only [mtAttrsLoopFuel, mtAttrsLoop, AttributeDefinition.view,
          AttributeDefinition.type]
        refine bindOE_congr (attrValidateFuel_ok _ n _ _ ha) _ _ (fun e he => ?_)
        rw [if_pos hv, if_pos hv]
        rfl
      | some t =>
        cases t with
        | mediaT cmt =>
          simp only [mtAttrsLoopFuel, mtAttrsLoop, AttributeDefinition.view,
            AttributeDefinition.type]
          refine bindOE_congr (attrValidateFuel_ok _ n _ _ ha) _ _ (fun e he => ?_)
          rw [if_pos hv, if_pos hv]
          exact mtAttrsLoopFuel_ok rest n m _ hr
        | primitive p =>
          simp only [mtAttrsLoopFuel, mtAttrsLoop, AttributeDefinition.view,
            AttributeDefinition.type]
          refine bindOE_congr (attrValidateFuel_ok _ n _ _ ha) _ _ (fun e he => ?_)
          rw [if_pos hv, if_pos hv]
          rfl
        | array e2 =>
          simp only [mtAttrsLoopFuel, mtAttrsLoop, AttributeDefinition.view,
            AttributeDefinition.type]
          refine bindOE_congr (attrValidateFuel_ok _ n _ _ ha) _ _ (fun e he => ?_)
          rw [if_pos hv, if_pos hv]
          rfl
        | object o =>
          simp only [mtAttrsLoopFuel, mtAttrsLoop, AttributeDefinition.view,
            AttributeDefinition.type]
          refine bindOE_congr (attrValidateFuel_ok _ n _ _ ha) _ _ (fun e he => ?_)
          rw [if_pos hv, if_pos hv]
          rfl
        | userT u =>
          simp only [mtAttrsLoopFuel, mtAttrsLoop, AttributeDefinition.view,
            AttributeDefinition.type]
          refine bindOE_congr (attrValidateFuel_ok _ n _ _ ha) _ _ (fun e he => ?_)
          rw [if_pos hv, if_pos hv]
          rfl

theorem mediaTypeValidateFuel_ok (m : MediaTypeDefinition) (n : Nat) (hn : sizeOf m < n) :
    mediaTypeValidateFuel n m = Option.some m.Validate := by
  obtain ⟨⟨⟨ty, vals, vw⟩, tn⟩, ident, vws, lks⟩ := m
  have hut : sizeOf (UserTypeDefinition.mk (AttributeDefinition.mk ty vals vw) tn) < n := by
    simp at hn ⊢; omega
  have hvws : sizeOf vws < n := by simp at hn; omega
  by_cases hid : ident = ""
  · subst hid
    cases ty with
    | none =>
      have hT : sizeOf (DataType.primitive Primitive.pstring) < n := by
        simp at hn ⊢; omega
      simp only [mediaTypeValidateFuel, MediaTypeDefinition.Validate,
        MediaTypeDefinition.ut, MediaTypeDefinition.identifier, MediaTypeDefinition.views,
        MediaTypeDefinition.links, mtDefaulted, MediaTypeDefinition.setIdentifier,
        MediaTypeDefinition.setType, MediaTypeDefinition.typeOpt, UserTypeDefinition.attr,
        AttributeDefinition.type, ne_eq, not_true_eq_false, if_false, ite_false,
        ite_true, if_true]
      refine bindOE_congr (userTypeValidateFuel_ok _ n "" _ hut) _ _ (fun e he => ?_)
      refine bindOE_congr (mtTypeSectionFuel_ok _ n _ _ hT) _ _ (fun p hp => ?_)
      obtain ⟨v2, obj⟩ := p
      cases obj with
      | none =>
        simp only [bindOE_okOE_red, expure_bind_red]
        refine bindOE_congr (viewsLoopFuel_ok vws n _ hvws) _ _ (fun v3 hv3 => ?_)
        exact bindOE_congr rfl _ _ (fun v4 hv4 => rfl)
      | some o =>
        have ho : sizeOf o < n :=
          Nat.lt_trans (mtTypeSection_obj_sizeOf _ _ _ v2 o hp) hT
        simp only []
        refine bindOE_congr (mtAttrsLoopFuel_ok o n _ _ ho) _ _ (fun v3 hv3 => ?_)
        refine bindOE_congr (viewsLoopFuel_ok vws n _ hvws) _ _ (fun v4 hv4 => ?_)
        exact bindOE_congr rfl _ _ (fun v5 hv5 => rfl)
    | some t =>
      have hT : sizeOf t < n := by simp at hn; omega
      simp only [mediaTypeValidateFuel, MediaTypeDefinition.Validate,
        MediaTypeDefinition.ut, MediaTypeDefinition.identifier, MediaTypeDefinition.views,
        MediaTypeDefinition.links, mtDefaulted, MediaTypeDefinition.setIdentifier,
        MediaTypeDefinition.setType, MediaTypeDefinition.typeOpt, UserTypeDefinition.attr,
        AttributeDefinition.type, ne_eq, not_true_eq_false, if_false, ite_false,
        ite_true, if_true]
      refine bindOE_congr (userTypeValidateFuel_ok _ n "" _ hut) _ _ (fun e he => ?_)
      refine bindOE_congr (mtTypeSectionFuel_ok _ n _ _ hT) _ _ (fun p hp => ?_)
      obtain ⟨v2, obj⟩ := p
      cases obj with
      | none =>
        simp only [bindOE_okOE_red, expure_bind_red]
        refine bindOE_congr (viewsLoopFuel_ok vws n _ hvws) _ _ (fun v3 hv3 => ?_)
        exact bindOE_congr rfl _ _ (fun v4 hv4 => rfl)
      | some o =>
        have ho : sizeOf o < n :=
          Nat.lt_trans (mtTypeSection_obj_sizeOf _ _ _ v2 o hp) hT
        simp only []
        refine bindOE_congr (mtAttrsLoopFuel_ok o n _ _ ho) _ _ (fun v3 hv3 => ?_)
        refine bindOE_congr (viewsLoopFuel_ok vws n _ hvws) _ _ (fun v4 hv4 => ?_)
        exact bindOE_congr rfl _ _ (fun v5 hv5 => rfl)
  · cases ty with
    | none =>
      have hT : sizeOf (DataType.primitive Primitive.pstring) < n := by
        simp at hn ⊢; omega
      simp only [mediaTypeValidateFuel, MediaTypeDefinition.Validate,
        MediaTypeDefinition.ut, MediaTypeDefinition.identifier, MediaTypeDefinition.views,
        MediaTypeDefinition.links, mtDefaulted, MediaTypeDefinition.setIdentifier,
        MediaTypeDefinition.setType, MediaTypeDefinition.typeOpt, UserTypeDefinition.attr,
        AttributeDefinition.type, ne_eq, hid, not_false_eq_true, if_false, ite_false,
        ite_true, if_true]
      refine bindOE_congr (userTypeValidateFuel_ok _ n "" _ hut) _ _ (fun e he => ?_)
      refine bindOE_congr (mtTypeSectionFuel_ok _ n _ _ hT) _ _ (fun p hp => ?_)
      obtain ⟨v2, obj⟩ := p
      cases obj with
      | none =>
        simp only [bindOE_okOE_red, expure_bind_red]
        refine bindOE_congr (viewsLoopFuel_ok vws n _ hvws) _ _ (fun v3 hv3 => ?_)
        exact bindOE_congr rfl _ _ (fun v4 hv4 => rfl)
      | some o =>
        have ho : sizeOf o < n :=
          Nat.lt_trans (mtTypeSection_obj_sizeOf _ _ _ v2 o hp) hT
        simp only []
        refine bindOE_congr (mtAttrsLoopFuel_ok o n _ _ ho) _ _ (fun v3 hv3 => ?_)
        refine bindOE_congr (viewsLoopFuel_ok vws n _ hvws) _ _ (fun v4 hv4 => ?_)
        exact bindOE_congr rfl _ _ (fun v5 hv5 => rfl)
    | some t =>
      have hT : sizeOf t < n := by simp at hn; omega
      simp only [mediaTypeValidateFuel, MediaTypeDefinition.Validate,
        MediaTypeDefinition.ut, MediaTypeDefinition.identifier, MediaTypeDefinition.views,
        MediaTypeDefinition.links, mtDefaulted, MediaTypeDefinition.setIdentifier,
        MediaTypeDefinition.setType, MediaTypeDefinition.typeOpt, UserTypeDefinition.attr,
        AttributeDefinition.type, ne_eq, hid, not_false_eq_true, if_false, ite_false,
        ite_true, if_true]
      refine bindOE_congr (userTypeValidateFuel_ok _ n "" _ hut) _ _ (fun e he => ?_)
      refine bindOE_congr (mtTypeSectionFuel_ok _ n _ _ hT) _ _ (fun p hp => ?_)
      obtain ⟨v2, obj⟩ := p
      cases obj with
      | none =>
        simp only [bindOE_okOE_red, expure_bind_red]
        refine bindOE_congr (viewsLoopFuel_ok vws n _ hvws) _ _ (fun v3 hv3 => ?_)
        exact bindOE_congr rfl _ _ (fun v4 hv4 => rfl)
      | some o =>
        have ho : sizeOf o < n :=
          Nat.lt_trans (mtTypeSection_obj_sizeOf _ _ _ v2 o hp) hT
        simp only []
        refine bindOE_congr (mtAttrsLoopFuel_ok o n _ _ ho) _ _ (fun v3 hv3 => ?_)
        refine bindOE_congr (viewsLoopFuel_ok vws n _ hvws) _ _ (fun v4 hv4 => ?_)
        exact bindOE_congr rfl _ _ (fun v5 hv5 => rfl)

theorem mediaTypesLoopFuel_ok (l : List MediaTypeDefinition) :
    ∀ n verr, sizeOf l < n →
      mediaTypesLoopFuel n verr l = Option.some (mediaTypesLoop verr l) :=
  match l with
  | [] => by intro n verr hn; rfl
  | m :: rest => by
    intro n verr hn
    have h1 : sizeOf m < n := by simp at hn; omega
    have h2 : sizeOf rest < n := by simp at hn; omega
    simp only [mediaTypesLoopFuel, mediaTypesLoop]
    refine bindOE_congr (mediaTypeValidateFuel_ok m n h1) _ _ (fun p hp => ?_)
    obtain ⟨m2, e⟩ := p
    exact mediaTypesLoopFuel_ok rest n _ h2

theorem typesLoopFuel_ok (l : List UserTypeDefinition) :
    ∀ n a verr, sizeOf l < n →
      typesLoopFuel n a verr l = Option.some (typesLoop a verr l) :=
  match l with
  | [] => by intro n a verr hn; rfl
  | t :: rest => by
    intro n a verr hn
    have h1 : sizeOf t < n := by simp at hn; omega
    have h2 : sizeOf rest < n := by simp at hn; omega
    simp only [typesLoopFuel, typesLoop]
    refine bindOE_congr (userTypeValidateFuel_ok t n "" _ h1) _ _ (fun e he => ?_)
    exact typesLoopFuel_ok rest n a _ h2

theorem apiValidateFuel_ok (a : APIDefinition) (reg : List String) (n : Nat)
    (hn : sizeOf a ≤ n) :
    apiValidateFuel n a reg = Option.some (a.Validate reg) := by
  obtain ⟨anm, bparams, ress, mts, uts, resps⟩ := a
  have hres : sizeOf ress < n := by simp at hn; omega
  have hmts : sizeOf mts < n := by simp at hn; omega
  have huts : sizeOf uts < n := by simp at hn; omega
  have hresp : sizeOf resps < n := by simp at hn; omega
  cases bparams with
  | none => rfl
  | some bp =>
    have hbp : sizeOf bp < n := by simp at hn; omega
    simp only [apiValidateFuel, APIDefinition.Validate]
    rw [attrValidateFuel_ok bp n "base parameters"
      (DSLDefinition.api ⟨anm, Option.some bp, ress, mts, uts, resps⟩) hbp]
    cases bp.Validate "base parameters"
        (DSLDefinition.api ⟨anm, Option.some bp, ress, mts, uts, resps⟩) with
    | error s => rfl
    | ok e =>
      simp only [bindOE_ok_red, bindOE_okOE_red, exbind_ok_red, expure_bind_red]
      refine bindOE_congr (resourcesLoopFuel_ok ress n reg _ hres) _ _ (fun v1 h1 => ?_)
      refine bindOE_congr (mediaTypesLoopFuel_ok mts n _ hmts) _ _ (fun v2 h2 => ?_)
      refine bindOE_congr (typesLoopFuel_ok uts n _ _ huts) _ _ (fun v3 h3 => ?_)
      refine bindOE_congr (respLoopSimpleFuel_ok resps n _ hresp) _ _ (fun v4 h4 => ?_)
      rfl

/-- C8. For every specification graph whose entity structure is acyclic — in
this embedding every value of the inductive entity family, which is exactly
the class of finite, non-self-containing object/array/media-type structures —
APIDefinition.Validate terminates: the fuel-indexed copy of the walker, which
consumes one unit of fuel per step of the recursive core and returns none
when the fuel runs out, already returns the walker's verdict when given
fuel equal to the size of the API definition, so the recursion depth of the
walk is bounded by the size of the specification. -/
theorem c8_acyclic_validation_terminates (a : APIDefinition) (reg : List String) :
    apiValidateFuel (sizeOf a) a reg = Option.some (a.Validate reg) :=
  apiValidateFuel_ok a reg (sizeOf a) (Nat.le_refl _)
